import Mathlib

/-!
# gas_sensors: `src/drivers/analog.c`

A shallow embedding of the analog measurement driver and a verification of
its specification.

## Modelling conventions

* **Floating point.**  C `float` values are modelled by `FVal`: an exact
  rational, or one of the IEEE-754 special values `+inf`, `-inf`, `NaN`.
  Arithmetic on finite values is exact (rounding, overflow to infinity and
  the sign of zero are not modelled; zero is treated as `+0`); the special
  values follow the IEEE-754 rules, so a division by zero yields an infinity
  or `NaN` exactly as the C code does, rather than an arbitrary number.
  Where rounding decides a statement (the electrochemical channels, whose
  result is a small difference of two voltages) the computation is given a
  second time with the rounding of every operation explicit, see the section
  on single precision.
* **Machine integers.**  `adcsample_t` is a 16-bit unsigned integer and the
  accumulator of `measure_resistance_voltage` a 32-bit one; both are `Nat`
  with explicit reductions `% 2^16` and `% 2^32`.
* **Hardware and kernel.**  The ChibiOS HAL and kernel calls act on an explicit
  `World`: GPIO output latches and pad modes, the sample buffer, the five
  snapshot variables, the mutex flag, the stream of results of the upcoming
  ADC conversions, and the chronological trace of HAL/kernel calls.
-/

namespace GasSensors

/-! ## Float values -/

/-- A C `float`: a finite value (exact rational) or an IEEE-754 special value. -/
inductive FVal where
  | fin (q : ℚ)
  | pinf
  | ninf
  | nan
deriving DecidableEq

namespace FVal

/-- IEEE-754 addition (finite part exact). -/
def add : FVal → FVal → FVal
  | fin a, fin b => fin (a + b)
  | fin _, pinf => pinf
  | fin _, ninf => ninf
  | fin _, nan => nan
  | pinf, fin _ => pinf
  | pinf, pinf => pinf
  | pinf, ninf => nan
  | pinf, nan => nan
  | ninf, fin _ => ninf
  | ninf, pinf => nan
  | ninf, ninf => ninf
  | ninf, nan => nan
  | nan, _ => nan

/-- IEEE-754 negation. -/
def neg : FVal → FVal
  | fin a => fin (-a)
  | pinf => ninf
  | ninf => pinf
  | nan => nan

/-- IEEE-754 subtraction. -/
def sub (x y : FVal) : FVal := add x (neg y)

/-- The infinity with the sign of `a` times the sign `pos`; `NaN` for `a = 0`
(the product `0 * inf`). -/
def signedInf (a : ℚ) (pos : Bool) : FVal :=
  if a = 0 then nan else if (decide (0 < a)) = pos then pinf else ninf

/-- IEEE-754 multiplication (finite part exact). -/
def mul : FVal → FVal → FVal
  | fin a, fin b => fin (a * b)
  | fin a, pinf => signedInf a true
  | fin a, ninf => signedInf a false
  | fin _, nan => nan
  | pinf, fin b => signedInf b true
  | pinf, pinf => pinf
  | pinf, ninf => ninf
  | pinf, nan => nan
  | ninf, fin b => signedInf b false
  | ninf, pinf => ninf
  | ninf, ninf => pinf
  | ninf, nan => nan
  | nan, _ => nan

/-- IEEE-754 division (finite part exact).  A finite nonzero value divided by
zero is an infinity, `0 / 0` is `NaN`, a finite value divided by an infinity is
zero.  Zero is treated as `+0`. -/
def div : FVal → FVal → FVal
  | fin a, fin b => if b = 0 then signedInf a true else fin (a / b)
  | fin _, pinf => fin 0
  | fin _, ninf => fin 0
  | fin _, nan => nan
  | pinf, fin b => if 0 ≤ b then pinf else ninf
  | pinf, pinf => nan
  | pinf, ninf => nan
  | pinf, nan => nan
  | ninf, fin b => if 0 ≤ b then ninf else pinf
  | ninf, pinf => nan
  | ninf, ninf => nan
  | ninf, nan => nan
  | nan, _ => nan

/-- The C comparison `x < y`: false whenever an operand is `NaN`. -/
def lt : FVal → FVal → Bool
  | fin a, fin b => decide (a < b)
  | fin _, pinf => true
  | ninf, fin _ => true
  | ninf, pinf => true
  | _, _ => false

/-- The C comparison `x <= y`: false whenever an operand is `NaN`. -/
def le : FVal → FVal → Bool
  | fin a, fin b => decide (a ≤ b)
  | fin _, pinf => true
  | ninf, fin _ => true
  | ninf, pinf => true
  | pinf, pinf => true
  | ninf, ninf => true
  | _, _ => false

/-- Conversion of an unsigned integer to `float` (exact for the 16-bit samples
and small constants this driver converts). -/
def ofNat (n : Nat) : FVal := fin (n : ℚ)

instance : Add FVal := ⟨add⟩
instance : Sub FVal := ⟨sub⟩
instance : Mul FVal := ⟨mul⟩
instance : Div FVal := ⟨div⟩

end FVal

open FVal

/-! ## Constants of `analog.c` -/

/-- The constant `#define ADC_GRP1_NUM_CHANNELS 3`. -/
def ADC_GRP1_NUM_CHANNELS : Nat := 3

/-- The constant `#define ADC_GRP1_BUF_DEPTH 8`. -/
def ADC_GRP1_BUF_DEPTH : Nat := 8

/-- The constant `#define REFERENCE_VOLTAGE 3.3f`. -/
def REFERENCE_VOLTAGE : FVal := fin 3.3

/-- The constant `#define SWITCH_TRESHOLD 2.0f`. -/
def SWITCH_TRESHOLD : FVal := fin 2.0

/-- The constant `#define ADC_BITS 4096`. -/
def ADC_BITS : Nat := 4096

/-! ## Hardware, kernel and module state -/

/-- The GPIOB pads the driver touches (pad numbers come from the board file;
the six pads are distinct). -/
inductive Pad where
  | GPIOB_SEN_SEL1
  | GPIOB_SEN_SEL2
  | GPIOB_SEN_SEL3
  | GPIOB_1M_MES_SEL
  | GPIOB_100K_MES_SEL
  | GPIOB_6K8_MES_SEL
deriving DecidableEq

/-- PAL pad modes: the two the driver sets, and any other mode a pad may be
in beforehand. -/
inductive PadMode where
  | PAL_MODE_INPUT
  | PAL_MODE_OUTPUT_PUSHPULL
  | other (code : Nat)
deriving DecidableEq

/-- Modelled from the spec: the enumeration `sensor_types_t` of `analog.h`
(absent from the sources), the four selectable gas sensors CO, NO2, NH3, O3. -/
inductive sensor_types_t where
  | CO_SENSOR
  | NO2_SENSOR
  | NH3_SENSOR
  | O3_SENSOR
deriving DecidableEq

/-- The two ADC conversion groups of `analog.c`. -/
inductive ConvGroup where
  | adcResOnly
  | adcElChemOnlu
deriving DecidableEq

/-- The field `num_channels` of a conversion group: 1 for `adcResOnly`, 2 for
`adcElChemOnlu`. -/
def ConvGroup.num_channels : ConvGroup → Nat
  | .adcResOnly => 1
  | .adcElChemOnlu => 2

/-- A call into the HAL or the kernel. -/
inductive Event where
  | chMtxLock
  | chMtxUnlock
  | chMtxObjectInit
  | adcStart
  | palSetPad (p : Pad)
  | palClearPad (p : Pad)
  | palSetPadMode (p : Pad) (m : PadMode)
  | adcConvert (grp : ConvGroup) (depth : Nat)
  | chThdSleepMilliseconds (ms : Nat)
deriving DecidableEq

/-- The state the driver acts on.

* `odr`, `mode`: output latch and mode of each pad;
* `samples1`: the static sample buffer (indices below 24 are in use);
* `no_gas_avg` .. `nh3_gas`: the five static snapshot variables;
* `analog_data`: whether the mutex `analog_data` is held;
* `adc_in k i`: sample `i` that the `k`-th upcoming conversion will deliver;
* `trace`: the HAL/kernel calls made so far, oldest first. -/
structure World where
  odr : Pad → Bool
  mode : Pad → PadMode
  samples1 : Nat → Nat
  no_gas_avg : FVal
  so2_gas_avg : FVal
  co_gas : FVal
  no2_gas : FVal
  nh3_gas : FVal
  analog_data : Bool
  adc_in : Nat → Nat → Nat
  trace : List Event

/-- The five snapshot fields in the order `(co, no2, nh3, no, so2)`. -/
def World.snapshot (w : World) : FVal × FVal × FVal × FVal × FVal :=
  (w.co_gas, w.no2_gas, w.nh3_gas, w.no_gas_avg, w.so2_gas_avg)

/-- The state with the next `k` conversion results dropped from the input
stream. -/
def World.advance (k : Nat) (w : World) : World :=
  { w with adc_in := fun j => w.adc_in (j + k) }

/-! ## HAL and kernel primitives -/

/-- Kernel call `chMtxLock(&analog_data)` (sequential view: the mutex is taken). -/
def chMtxLock (w : World) : World :=
  { w with analog_data := true, trace := w.trace ++ [Event.chMtxLock] }

/-- Kernel call `chMtxUnlock(&analog_data)`. -/
def chMtxUnlock (w : World) : World :=
  { w with analog_data := false, trace := w.trace ++ [Event.chMtxUnlock] }

/-- Kernel call `chMtxObjectInit(&analog_data)`. -/
def chMtxObjectInit (w : World) : World :=
  { w with analog_data := false, trace := w.trace ++ [Event.chMtxObjectInit] }

/-- HAL call `adcStart(&ADCD1, NULL)`. -/
def adcStart (w : World) : World :=
  { w with trace := w.trace ++ [Event.adcStart] }

/-- HAL call `palSetPad(GPIOB, p)`. -/
def palSetPad (p : Pad) (w : World) : World :=
  { w with odr := fun q => if q = p then true else w.odr q,
           trace := w.trace ++ [Event.palSetPad p] }

/-- HAL call `palClearPad(GPIOB, p)`. -/
def palClearPad (p : Pad) (w : World) : World :=
  { w with odr := fun q => if q = p then false else w.odr q,
           trace := w.trace ++ [Event.palClearPad p] }

/-- HAL call `palSetPadMode(GPIOB, p, m)`. -/
def palSetPadMode (p : Pad) (m : PadMode) (w : World) : World :=
  { w with mode := fun q => if q = p then m else w.mode q,
           trace := w.trace ++ [Event.palSetPadMode p m] }

/-- Kernel call `chThdSleepMilliseconds(ms)`. -/
def chThdSleepMilliseconds (ms : Nat) (w : World) : World :=
  { w with trace := w.trace ++ [Event.chThdSleepMilliseconds ms] }

/-- HAL call `adcConvert(&ADCD1, grp, samples1, depth)`: the next conversion
result fills the first `num_channels * depth` entries of `samples1` with
16-bit samples. -/
def adcConvert (grp : ConvGroup) (depth : Nat) (w : World) : World :=
  { w with samples1 := fun i =>
             if i < grp.num_channels * depth then w.adc_in 0 i % 65536 else w.samples1 i,
           adc_in := fun k => w.adc_in (k + 1),
           trace := w.trace ++ [Event.adcConvert grp depth] }

/-! ## The driver -/

/-- The function `get_voltage`: `(REFERENCE_VOLTAGE / ADC_BITS) * sample`. -/
def get_voltage (sample : Nat) : FVal :=
  (REFERENCE_VOLTAGE / FVal.ofNat ADC_BITS) * FVal.ofNat sample

/-- The function `select_sensor`. -/
def select_sensor (sensor : sensor_types_t) (w : World) : World :=
  match sensor with
  | .CO_SENSOR =>
    let w := palClearPad .GPIOB_SEN_SEL1 w
    let w := palClearPad .GPIOB_SEN_SEL2 w
    palClearPad .GPIOB_SEN_SEL3 w
  | .NO2_SENSOR =>
    let w := palSetPad .GPIOB_SEN_SEL1 w
    let w := palClearPad .GPIOB_SEN_SEL2 w
    palClearPad .GPIOB_SEN_SEL3 w
  | .NH3_SENSOR =>
    let w := palClearPad .GPIOB_SEN_SEL1 w
    let w := palSetPad .GPIOB_SEN_SEL2 w
    palClearPad .GPIOB_SEN_SEL3 w
  | .O3_SENSOR =>
    let w := palSetPad .GPIOB_SEN_SEL1 w
    let w := palSetPad .GPIOB_SEN_SEL2 w
    palClearPad .GPIOB_SEN_SEL3 w

/-- The function `measure_resistance_voltage`: one 8-sample conversion, the
samples summed in a `uint32_t`, the sum divided by 8 (integer division), the
quotient cast to `adcsample_t` and converted by `get_voltage`. -/
def measure_resistance_voltage (w : World) : FVal × World :=
  let w := adcConvert .adcResOnly ADC_GRP1_BUF_DEPTH w
  let resistance_avg : Nat :=
    (List.range ADC_GRP1_BUF_DEPTH).foldl (fun acc i => (acc + w.samples1 i) % 2 ^ 32) 0
  let resistance_avg := resistance_avg / ADC_GRP1_BUF_DEPTH
  (get_voltage (resistance_avg % 65536), w)

/-- The expression `r_ref * (1/((3.3f/res_voltage) - 1))` that `measureResistance`
evaluates at each stage (lines 155, 162, 168 and 175), with the stage's
reference constant `r_ref`. -/
def divider_resistance (r_ref : FVal) (res_voltage : FVal) : FVal :=
  r_ref * (fin 1 / ((fin 3.3 / res_voltage) - fin 1))

/-- The body of `measureResistance`, with the callee that measures the divider
voltage as a parameter `mv` (the driver passes `measure_resistance_voltage`). -/
def measureResistanceWith (mv : World → FVal × World) (w : World) : FVal × World :=
  let w := palSetPadMode .GPIOB_1M_MES_SEL .PAL_MODE_INPUT w
  let w := palSetPadMode .GPIOB_100K_MES_SEL .PAL_MODE_INPUT w
  let w := palSetPadMode .GPIOB_6K8_MES_SEL .PAL_MODE_INPUT w
  let w := palClearPad .GPIOB_1M_MES_SEL w
  let w := palClearPad .GPIOB_100K_MES_SEL w
  let w := palClearPad .GPIOB_6K8_MES_SEL w
  let r0 := mv w
  let res_voltage := r0.1
  let w := r0.2
  let resistance := divider_resistance (fin 12322300) res_voltage
  if FVal.lt res_voltage SWITCH_TRESHOLD then
    let w := palSetPadMode .GPIOB_1M_MES_SEL .PAL_MODE_OUTPUT_PUSHPULL w
    let w := palSetPad .GPIOB_1M_MES_SEL w
    let r1 := mv w
    let res_voltage := r1.1
    let w := r1.2
    let resistance := divider_resistance (fin 1232230) res_voltage
    if FVal.lt res_voltage SWITCH_TRESHOLD then
      let w := palSetPadMode .GPIOB_100K_MES_SEL .PAL_MODE_OUTPUT_PUSHPULL w
      let w := palSetPad .GPIOB_100K_MES_SEL w
      let r2 := mv w
      let res_voltage := r2.1
      let w := r2.2
      let resistance := divider_resistance (fin 106230) res_voltage
      if FVal.lt res_voltage SWITCH_TRESHOLD then
        let w := palSetPadMode .GPIOB_6K8_MES_SEL .PAL_MODE_OUTPUT_PUSHPULL w
        let w := palSetPad .GPIOB_6K8_MES_SEL w
        let r3 := mv w
        let res_voltage := r3.1
        let w := r3.2
        let resistance := divider_resistance (fin 6830) res_voltage
        (resistance, w)
      else (resistance, w)
    else (resistance, w)
  else (resistance, w)

/-- The function `measureResistance`. -/
def measureResistance (w : World) : FVal × World :=
  measureResistanceWith measure_resistance_voltage w

/-- The statement `co_gas = measureResistance();`. -/
def assign_co_gas (w : World) : World :=
  let r := measureResistance w
  { r.2 with co_gas := r.1 }

/-- The statement `no2_gas = measureResistance();`. -/
def assign_no2_gas (w : World) : World :=
  let r := measureResistance w
  { r.2 with no2_gas := r.1 }

/-- The statement `nh3_gas = measureResistance();`. -/
def assign_nh3_gas (w : World) : World :=
  let r := measureResistance w
  { r.2 with nh3_gas := r.1 }

/-- The statements of lines 71-80 of `measure_sensors`, in program order: the
lock and the three resistive measurements. -/
def measure_sensors_resistive : List (World → World) :=
  [ chMtxLock,
    select_sensor .CO_SENSOR,
    assign_co_gas,
    select_sensor .NO2_SENSOR,
    assign_no2_gas,
    select_sensor .NH3_SENSOR,
    chThdSleepMilliseconds 5,
    assign_nh3_gas ]

/-- The statements of lines 82-98 of `measure_sensors`, in program order: the
electrochemical channels and the unlock; each loop contributes one statement
per iteration (`i = 2 * j`, respectively `i = 2 * j + 1`, for `j` below 8).
The arithmetic is exact: the literals `1.646757679f`, `1.5e-5f`, `2e-4f` stand
for these decimals and no operation rounds.  The same lines with every
operation rounded are `no_gas_avg_with` and `so2_gas_avg_with`, which give the
values of this list when the rounding is the identity and the code's
single-precision values when it is `f32`. -/
def measure_sensors_elchem : List (World → World) :=
  [ fun w => { w with no_gas_avg := fin 0 },
    fun w => { w with so2_gas_avg := fin 0 },
    adcConvert .adcElChemOnlu ADC_GRP1_BUF_DEPTH ]
  ++ (List.range ADC_GRP1_BUF_DEPTH).map
      (fun j w => { w with no_gas_avg := w.no_gas_avg + get_voltage (w.samples1 (2 * j)) })
  ++ [ fun w => { w with no_gas_avg := w.no_gas_avg / FVal.ofNat ADC_GRP1_BUF_DEPTH },
       fun w => { w with no_gas_avg := w.no_gas_avg - fin 1.646757679 },
       fun w => { w with no_gas_avg := w.no_gas_avg / fin 1.5e-5 } ]
  ++ (List.range ADC_GRP1_BUF_DEPTH).map
      (fun j w => { w with so2_gas_avg := w.so2_gas_avg + get_voltage (w.samples1 (2 * j + 1)) })
  ++ [ fun w => { w with so2_gas_avg := w.so2_gas_avg / FVal.ofNat ADC_GRP1_BUF_DEPTH },
       fun w => { w with so2_gas_avg := w.so2_gas_avg - fin 1.646757679 },
       fun w => { w with so2_gas_avg := w.so2_gas_avg / fin 2e-4 },
       chMtxUnlock ]

/-- The statements of `measure_sensors`, in program order. -/
def measure_sensors_body : List (World → World) :=
  measure_sensors_resistive ++ measure_sensors_elchem

/-- Sequential execution of a list of statements. -/
def run (stmts : List (World → World)) (w : World) : World :=
  stmts.foldl (fun w f => f w) w

/-- The states a list of statements passes through: the initial state, then
the state after each statement. -/
def run_points (stmts : List (World → World)) (w : World) : List World :=
  stmts.scanl (fun w f => f w) w

/-- The function `measure_sensors`. -/
def measure_sensors (w : World) : World :=
  run measure_sensors_body w

/-- The function `get_analog_sensor_values`; the five out-parameters are returned
as a tuple `(co, no2, nh3, no, so2)`. -/
def get_analog_sensor_values (w : World) : (FVal × FVal × FVal × FVal × FVal) × World :=
  let w := chMtxLock w
  let co := w.co_gas
  let no2 := w.no2_gas
  let nh3 := w.nh3_gas
  let no := w.no_gas_avg
  let so2 := w.so2_gas_avg
  let w := chMtxUnlock w
  ((co, no2, nh3, no, so2), w)

/-- The function `init_analog`. -/
def init_analog (w : World) : World :=
  let w := adcStart w
  chMtxObjectInit w

/-! ## Observations used in the statements -/

/-- The levels of the three selection lines `(SEN_SEL1, SEN_SEL2, SEN_SEL3)`. -/
def sel_lines (w : World) : Bool × Bool × Bool :=
  (w.odr .GPIOB_SEN_SEL1, w.odr .GPIOB_SEN_SEL2, w.odr .GPIOB_SEN_SEL3)

/-- The selection-line table of the specification (section 4.1). -/
def sel_table : sensor_types_t → Bool × Bool × Bool
  | .CO_SENSOR => (false, false, false)
  | .NO2_SENSOR => (true, false, false)
  | .NH3_SENSOR => (false, true, false)
  | .O3_SENSOR => (true, true, false)

/-- The 16-bit samples that the next conversion writes to `samples1`. -/
def conv_samples (w : World) : Nat → Nat := fun i => w.adc_in 0 i % 65536

/-- The sum `s 0 + ... + s 7` of eight samples. -/
def sum8 (s : Nat → Nat) : Nat := ((List.range 8).map s).sum

/-- The specification's reading of `measure_resistance_voltage`: the arithmetic
mean of the eight samples converted to voltage, `(3.3/4096) * (s0 + ... + s7)/8`,
over the rationals. -/
def spec_mean_voltage (s : Nat → Nat) : ℚ := 3.3 / 4096 * ((sum8 s : ℚ) / 8)

/-- The state after reset: statics zero-initialised, pads low and in input
mode, mutex free, no call made yet; `adc` gives the results of the conversions
to come. -/
def boot_world (adc : Nat → Nat → Nat) : World :=
  { odr := fun _ => false,
    mode := fun _ => .PAL_MODE_INPUT,
    samples1 := fun _ => 0,
    no_gas_avg := fin 0,
    so2_gas_avg := fin 0,
    co_gas := fin 0,
    no2_gas := fin 0,
    nh3_gas := fin 0,
    analog_data := false,
    adc_in := adc,
    trace := [] }

/-- The divider voltage that `measure_resistance_voltage` returns at ranging
stage `i` (0 = full, 1 = 1M, 2 = 100k, 3 = 6.8k) of a `measureResistance` call
started in `w`: the voltage measured on the `i`-th upcoming conversion. -/
def stage_voltage (w : World) (i : Nat) : FVal :=
  (measure_resistance_voltage (w.advance i)).1

/-- The reference constant of ranging stage `i`: 12322300, 1232230, 106230, 6830. -/
def stage_ref : Nat → FVal
  | 0 => fin 12322300
  | 1 => fin 1232230
  | 2 => fin 106230
  | _ => fin 6830

/-- The number of `adcConvert` calls in a trace. -/
def conv_count (tr : List Event) : Nat :=
  tr.countP (fun e => match e with
    | .adcConvert _ _ => true
    | _ => false)

/-- An input stream in which every sample of the `k`-th upcoming conversion is
the `k`-th entry of `l` (0 past the end of `l`). -/
def adc_steps (l : List Nat) : Nat → Nat → Nat := fun k _ => l.getD k 0

/-- The state in which ranging stage `i` of `measureResistanceWith mv` takes its
measurement: after the reset of the three bypass lines for stage 0, and after
the next bypass line was made a push-pull output and driven high for the
later stages. -/
def stage_entry (mv : World → FVal × World) (w : World) : Nat → World
  | 0 =>
    palClearPad .GPIOB_6K8_MES_SEL (palClearPad .GPIOB_100K_MES_SEL
      (palClearPad .GPIOB_1M_MES_SEL (palSetPadMode .GPIOB_6K8_MES_SEL .PAL_MODE_INPUT
        (palSetPadMode .GPIOB_100K_MES_SEL .PAL_MODE_INPUT
          (palSetPadMode .GPIOB_1M_MES_SEL .PAL_MODE_INPUT w)))))
  | 1 =>
    palSetPad .GPIOB_1M_MES_SEL (palSetPadMode .GPIOB_1M_MES_SEL .PAL_MODE_OUTPUT_PUSHPULL
      (mv (stage_entry mv w 0)).2)
  | 2 =>
    palSetPad .GPIOB_100K_MES_SEL (palSetPadMode .GPIOB_100K_MES_SEL .PAL_MODE_OUTPUT_PUSHPULL
      (mv (stage_entry mv w 1)).2)
  | (n + 3) =>
    palSetPad .GPIOB_6K8_MES_SEL (palSetPadMode .GPIOB_6K8_MES_SEL .PAL_MODE_OUTPUT_PUSHPULL
      (mv (stage_entry mv w (n + 2))).2)

/-- The specification's resistance formula `R_ref / (1/(3.3 / V) - 1)`, read
literally. -/
def spec_resistance (r_ref : FVal) (v : FVal) : FVal :=
  r_ref / ((fin 1 / (fin 3.3 / v)) - fin 1)

/-- The state of a `measure_sensors` cycle started in `w` when the
electrochemical part (line 82) begins; its next conversion is the 2-channel
one. -/
def elchem_entry (w : World) : World := run measure_sensors_resistive w

/-- The NO result as the specification gives it: the mean over the eight
even-indexed samples of `(3.3/4096) * sample`, minus 1.646757679, divided by
1.5e-5. -/
def no_formula (s : Nat → Nat) : ℚ :=
  ((((List.range 8).map (fun j => 3.3 / 4096 * (s (2 * j) : ℚ))).sum / 8) - 1.646757679) / 1.5e-5

/-- The SO2 result as the specification gives it: the mean over the eight
odd-indexed samples of `(3.3/4096) * sample`, minus 1.646757679, divided by
2e-4. -/
def so2_formula (s : Nat → Nat) : ℚ :=
  ((((List.range 8).map (fun j => 3.3 / 4096 * (s (2 * j + 1) : ℚ))).sum / 8) - 1.646757679) / 2e-4

/-- The calls `select_sensor s` makes, in order. -/
def select_events : sensor_types_t → List Event
  | .CO_SENSOR =>
    [.palClearPad .GPIOB_SEN_SEL1, .palClearPad .GPIOB_SEN_SEL2, .palClearPad .GPIOB_SEN_SEL3]
  | .NO2_SENSOR =>
    [.palSetPad .GPIOB_SEN_SEL1, .palClearPad .GPIOB_SEN_SEL2, .palClearPad .GPIOB_SEN_SEL3]
  | .NH3_SENSOR =>
    [.palClearPad .GPIOB_SEN_SEL1, .palSetPad .GPIOB_SEN_SEL2, .palClearPad .GPIOB_SEN_SEL3]
  | .O3_SENSOR =>
    [.palSetPad .GPIOB_SEN_SEL1, .palSetPad .GPIOB_SEN_SEL2, .palClearPad .GPIOB_SEN_SEL3]

/-- The calls of a resistance measurement that stops at ranging stage `k`: the
reset of the three bypass lines, one single-channel conversion, and for each
of the first `k` bypass lines its switch to a driven-high push-pull output
followed by one more single-channel conversion. -/
def ranging_events (k : Nat) : List Event :=
  [ .palSetPadMode .GPIOB_1M_MES_SEL .PAL_MODE_INPUT,
    .palSetPadMode .GPIOB_100K_MES_SEL .PAL_MODE_INPUT,
    .palSetPadMode .GPIOB_6K8_MES_SEL .PAL_MODE_INPUT,
    .palClearPad .GPIOB_1M_MES_SEL,
    .palClearPad .GPIOB_100K_MES_SEL,
    .palClearPad .GPIOB_6K8_MES_SEL,
    .adcConvert .adcResOnly 8 ]
  ++ (if 1 ≤ k then
        [ .palSetPadMode .GPIOB_1M_MES_SEL .PAL_MODE_OUTPUT_PUSHPULL,
          .palSetPad .GPIOB_1M_MES_SEL,
          .adcConvert .adcResOnly 8 ]
      else [])
  ++ (if 2 ≤ k then
        [ .palSetPadMode .GPIOB_100K_MES_SEL .PAL_MODE_OUTPUT_PUSHPULL,
          .palSetPad .GPIOB_100K_MES_SEL,
          .adcConvert .adcResOnly 8 ]
      else [])
  ++ (if 3 ≤ k then
        [ .palSetPadMode .GPIOB_6K8_MES_SEL .PAL_MODE_OUTPUT_PUSHPULL,
          .palSetPad .GPIOB_6K8_MES_SEL,
          .adcConvert .adcResOnly 8 ]
      else [])

/-- Whether a call is the delay primitive. -/
def is_sleep : Event → Bool
  | .chThdSleepMilliseconds _ => true
  | _ => false

/-- Whether a call acts on one of the three sensor selection lines. -/
def on_sel_line : Event → Bool
  | .palSetPad p => p = .GPIOB_SEN_SEL1 ∨ p = .GPIOB_SEN_SEL2 ∨ p = .GPIOB_SEN_SEL3
  | .palClearPad p => p = .GPIOB_SEN_SEL1 ∨ p = .GPIOB_SEN_SEL2 ∨ p = .GPIOB_SEN_SEL3
  | .palSetPadMode p _ => p = .GPIOB_SEN_SEL1 ∨ p = .GPIOB_SEN_SEL2 ∨ p = .GPIOB_SEN_SEL3
  | _ => false

/-- Whether a call is a conversion of the 2-channel group. -/
def is_elchem_conv : Event → Bool
  | .adcConvert .adcElChemOnlu _ => true
  | _ => false

/-- The calls of one `measure_sensors` cycle whose three resistance
measurements stop at stages `k1` (CO), `k2` (NO2) and `k3` (NH3). -/
def cycle_events (k1 k2 k3 : Nat) : List Event :=
  [Event.chMtxLock]
  ++ select_events .CO_SENSOR ++ ranging_events k1
  ++ select_events .NO2_SENSOR ++ ranging_events k2
  ++ select_events .NH3_SENSOR ++ [Event.chThdSleepMilliseconds 5] ++ ranging_events k3
  ++ [Event.adcConvert .adcElChemOnlu 8, Event.chMtxUnlock]

/-- The ranging stage at which a `measureResistance` call started in `w` stops:
the first stage whose voltage is not below the switch threshold, or 3. -/
def stop_stage (w : World) : Nat :=
  if FVal.lt (stage_voltage w 0) SWITCH_TRESHOLD then
    if FVal.lt (stage_voltage w 1) SWITCH_TRESHOLD then
      if FVal.lt (stage_voltage w 2) SWITCH_TRESHOLD then 3 else 2
    else 1
  else 0

/-- The ranging-bypass lines in escalation order: 1M, 100K, 6K8. -/
def bypass_line : Nat → Pad
  | 0 => .GPIOB_1M_MES_SEL
  | 1 => .GPIOB_100K_MES_SEL
  | _ => .GPIOB_6K8_MES_SEL

/-- A state in use: statics left by an earlier cycle, all pads high and in
push-pull output mode, a non-empty history; `adc` gives the results of the
conversions to come. -/
def used_world (adc : Nat → Nat → Nat) : World :=
  { odr := fun _ => true,
    mode := fun _ => .PAL_MODE_OUTPUT_PUSHPULL,
    samples1 := fun _ => 4095,
    no_gas_avg := fin 7,
    so2_gas_avg := fin (-3),
    co_gas := fin 5000,
    no2_gas := fin 12,
    nh3_gas := pinf,
    analog_data := false,
    adc_in := adc,
    trace := [Event.adcStart, Event.chMtxObjectInit] }

/-- Whether a call takes or releases the mutex. -/
def is_lock_op : Event → Bool
  | .chMtxLock => true
  | .chMtxUnlock => true
  | _ => false

/-- The calls of a `measure_sensors` cycle between the lock and the unlock. -/
def cycle_inner (k1 k2 k3 : Nat) : List Event :=
  select_events .CO_SENSOR ++ ranging_events k1
  ++ select_events .NO2_SENSOR ++ ranging_events k2
  ++ select_events .NH3_SENSOR ++ [Event.chThdSleepMilliseconds 5] ++ ranging_events k3
  ++ [Event.adcConvert .adcElChemOnlu 8]

/-- The smallest of the eight samples `s 0 .. s 7`. -/
def min8 (s : Nat → Nat) : Nat := ((List.range 8).map s).foldl min (s 0)

/-- The largest of the eight samples `s 0 .. s 7`. -/
def max8 (s : Nat → Nat) : Nat := ((List.range 8).map s).foldl max (s 0)

/-! ## Single precision

The electrochemical pipeline once more, with the rounding of every `float`
operation explicit.  A finite `float` is identified with the rational it
denotes; `f32` rounds an exact result to the nearest binary32 value (24-bit
significand, ties to even).  The exponent range is not bounded: no operation
of lines 82-97 overflows or produces a subnormal number for 16-bit samples.
With the identity in place of `f32` the pipeline is the exact arithmetic of
`measure_sensors_elchem`. -/

/-- The function `get_voltage` with every operation rounded by `rnd`: the
literal `3.3f`, the conversions of `ADC_BITS` and of the sample to `float`, the
division and the multiplication. -/
def get_voltage_with (rnd : ℚ → ℚ) (sample : Nat) : ℚ :=
  rnd (rnd (rnd 3.3 / rnd (ADC_BITS : ℚ)) * rnd (sample : ℚ))

/-- The state `get_analog_sensor_values` acts on, statement by statement: the
driver state and the five caller objects `*co`, `*no2`, `*nh3`, `*no`, `*so2`
that the out-pointers designate (five distinct objects, none of them one of
the driver's statics). -/
structure AccessorState where
  world : World
  co : FVal
  no2 : FVal
  nh3 : FVal
  no : FVal
  so2 : FVal

/-- The five caller objects in the order `(co, no2, nh3, no, so2)`. -/
def AccessorState.out (a : AccessorState) : FVal × FVal × FVal × FVal × FVal :=
  (a.co, a.no2, a.nh3, a.no, a.so2)

/-- The statements of `get_analog_sensor_values` (lines 188-194), in program
order. -/
def get_analog_sensor_values_body : List (AccessorState → AccessorState) :=
  [ fun a => { a with world := chMtxLock a.world },
    fun a => { a with co := a.world.co_gas },
    fun a => { a with no2 := a.world.no2_gas },
    fun a => { a with nh3 := a.world.nh3_gas },
    fun a => { a with no := a.world.no_gas_avg },
    fun a => { a with so2 := a.world.so2_gas_avg },
    fun a => { a with world := chMtxUnlock a.world } ]

/-- The states `get_analog_sensor_values` passes through: the initial state,
then the state after each statement. -/
def accessor_points (a : AccessorState) : List AccessorState :=
  get_analog_sensor_values_body.scanl (fun a f => f a) a

/-- The state in which `get_analog_sensor_values` returns. -/
def accessor_run (a : AccessorState) : AccessorState :=
  get_analog_sensor_values_body.foldl (fun a f => f a) a

/-! ## Theorems -/

/-! ### Float values -/

theorem fin_add_fin (a b : ℚ) : fin a + fin b = fin (a + b) := rfl

theorem fin_sub_fin (a b : ℚ) : fin a - fin b = fin (a - b) := by
  show FVal.add (fin a) (FVal.neg (fin b)) = fin (a - b)
  simp [FVal.add, FVal.neg, sub_eq_add_neg]

theorem fin_mul_fin (a b : ℚ) : fin a * fin b = fin (a * b) := rfl

theorem fin_div_fin (a b : ℚ) (hb : b ≠ 0) : fin a / fin b = fin (a / b) := by
  show FVal.div (fin a) (fin b) = fin (a / b)
  simp [FVal.div, hb]

theorem lt_fin_fin (a b : ℚ) : FVal.lt (fin a) (fin b) = decide (a < b) := rfl

theorem le_fin_fin (a b : ℚ) : FVal.le (fin a) (fin b) = decide (a ≤ b) := rfl

theorem get_voltage_eq (n : Nat) : get_voltage n = fin (3.3 / 4096 * (n : ℚ)) := by
  have h : ((4096 : ℕ) : ℚ) ≠ 0 := by norm_num
  simp only [get_voltage, REFERENCE_VOLTAGE, ADC_BITS, FVal.ofNat, fin_div_fin _ _ h,
    fin_mul_fin]
  norm_num

/-! ### Averaging in `measure_resistance_voltage` -/

theorem conv_samples_eq (w : World) : conv_samples w = fun i => w.adc_in 0 i % 65536 := rfl

theorem range8 : List.range 8 = [0, 1, 2, 3, 4, 5, 6, 7] := by decide

theorem measure_resistance_voltage_fst (w : World) :
    (measure_resistance_voltage w).1 = get_voltage (sum8 (conv_samples w) / 8) := by
  have key : ((List.range 8).foldl
      (fun acc i => (acc + (if i < 1 * 8 then w.adc_in 0 i % 65536 else w.samples1 i)) % 2 ^ 32) 0)
      / 8 % 65536 = ((List.range 8).map (fun i => w.adc_in 0 i % 65536)).sum / 8 := by
    rw [range8]
    simp only [List.foldl, List.map, List.sum_cons, List.sum_nil]
    norm_num
    omega
  simp only [measure_resistance_voltage, adcConvert, ADC_GRP1_BUF_DEPTH, ConvGroup.num_channels,
    sum8]
  rw [key]
  rfl

theorem measure_resistance_voltage_snd (w : World) :
    (measure_resistance_voltage w).2 = adcConvert .adcResOnly 8 w := rfl

/-- C6 (as stated, refuted): with the eight samples `1, 0, 0, 0, 0, 0, 0, 0` the
function returns `0` volts, while the arithmetic mean of the samples converted
to voltage is `(3.3/4096) * 1/8 = 33/327680` volts. -/
theorem measure_resistance_voltage_not_exact_mean :
    (measure_resistance_voltage (boot_world (fun _ i => if i = 0 then 1 else 0))).1 = fin 0
    ∧ spec_mean_voltage (conv_samples (boot_world (fun _ i => if i = 0 then 1 else 0)))
        = 33 / 327680
    ∧ (measure_resistance_voltage (boot_world (fun _ i => if i = 0 then 1 else 0))).1
        ≠ fin (spec_mean_voltage (conv_samples (boot_world (fun _ i => if i = 0 then 1 else 0)))) := by
  have h1 : sum8 (conv_samples (boot_world (fun _ i => if i = 0 then 1 else 0))) = 1 := by
    simp [sum8, range8, conv_samples, boot_world]
  have h2 : spec_mean_voltage (conv_samples (boot_world (fun _ i => if i = 0 then 1 else 0)))
      = 33 / 327680 := by
    rw [spec_mean_voltage, h1]; norm_num
  have h3 : (measure_resistance_voltage (boot_world (fun _ i => if i = 0 then 1 else 0))).1
      = fin 0 := by
    rw [measure_resistance_voltage_fst, h1, get_voltage_eq]; norm_num
  refine ⟨h3, h2, ?_⟩
  rw [h3, h2]
  intro h
  injection h with h
  norm_num at h

/-- C6 (amended): for every 8-sample buffer the conversion delivers,
`measure_resistance_voltage` returns the transfer function applied to the
truncated integer average, `(3.3/4096) * floor((s0 + ... + s7)/8)`; this is at
most the exact mean converted to voltage, below it by less than one step
`3.3/4096`, and equal to it when the sum is a multiple of 8. -/
theorem measure_resistance_voltage_truncated_mean (w : World) :
    (measure_resistance_voltage w).1
      = fin (3.3 / 4096 * ((sum8 (conv_samples w) / 8 : ℕ) : ℚ))
    ∧ 3.3 / 4096 * ((sum8 (conv_samples w) / 8 : ℕ) : ℚ) ≤ spec_mean_voltage (conv_samples w)
    ∧ spec_mean_voltage (conv_samples w) - 3.3 / 4096 * ((sum8 (conv_samples w) / 8 : ℕ) : ℚ)
        < 3.3 / 4096
    ∧ (8 ∣ sum8 (conv_samples w) →
        (measure_resistance_voltage w).1 = fin (spec_mean_voltage (conv_samples w))) := by
  have hv : (measure_resistance_voltage w).1
      = fin (3.3 / 4096 * ((sum8 (conv_samples w) / 8 : ℕ) : ℚ)) := by
    rw [measure_resistance_voltage_fst, get_voltage_eq]
  simp only [spec_mean_voltage]
  generalize sum8 (conv_samples w) = n at hv ⊢
  have hdm : 8 * (n / 8) + n % 8 = n := Nat.div_add_mod n 8
  have hlt : n % 8 < 8 := Nat.mod_lt n (by norm_num)
  have hq : (n : ℚ) = 8 * ((n / 8 : ℕ) : ℚ) + ((n % 8 : ℕ) : ℚ) := by
    exact_mod_cast hdm.symm
  have hr0 : (0 : ℚ) ≤ ((n % 8 : ℕ) : ℚ) := by positivity
  have hr8 : ((n % 8 : ℕ) : ℚ) < 8 := by exact_mod_cast hlt
  refine ⟨hv, ?_, ?_, ?_⟩
  · rw [hq]
    norm_num
    linarith
  · rw [hq]
    norm_num
    linarith
  · intro hd
    rw [hv]
    have : ((n / 8 : ℕ) : ℚ) = (n : ℚ) / 8 := by
      rw [Nat.cast_div hd (by norm_num)]
      norm_num
    rw [this]

/-- C5: whatever the prior state, `select_sensor` leaves the three selection
lines in the state of the table CO=(0,0,0), NO2=(1,0,0), NH3=(0,1,0),
O3=(1,1,0); the third line is low after every call; two calls that leave the
same line state selected the same sensor (the four states are pairwise
distinct). -/
theorem select_sensor_table (w : World) :
    sel_lines (select_sensor .CO_SENSOR w) = (false, false, false)
    ∧ sel_lines (select_sensor .NO2_SENSOR w) = (true, false, false)
    ∧ sel_lines (select_sensor .NH3_SENSOR w) = (false, true, false)
    ∧ sel_lines (select_sensor .O3_SENSOR w) = (true, true, false)
    ∧ (∀ s, (select_sensor s w).odr .GPIOB_SEN_SEL3 = false)
    ∧ (∀ s t (w2 : World),
        sel_lines (select_sensor s w) = sel_lines (select_sensor t w2) → s = t) := by
  refine ⟨?_, ?_, ?_, ?_, ?_, ?_⟩
  · simp [sel_lines, select_sensor, palSetPad, palClearPad]
  · simp [sel_lines, select_sensor, palSetPad, palClearPad]
  · simp [sel_lines, select_sensor, palSetPad, palClearPad]
  · simp [sel_lines, select_sensor, palSetPad, palClearPad]
  · intro s
    cases s <;> simp [select_sensor, palSetPad, palClearPad]
  · intro s t w2
    cases s <;> cases t <;> simp [sel_lines, select_sensor, palSetPad, palClearPad]

/-! ### Ranging in `measureResistance` -/

theorem stage_voltage_eq (w : World) (i : Nat) :
    stage_voltage w i = get_voltage (sum8 (fun n => w.adc_in i n % 65536) / 8) := by
  rw [stage_voltage, measure_resistance_voltage_fst]
  simp [conv_samples_eq, World.advance]

theorem stage_voltage_fin (w : World) (i : Nat) :
    ∃ v : ℚ, stage_voltage w i = fin v := by
  rw [stage_voltage_eq, get_voltage_eq]
  exact ⟨_, rfl⟩

theorem not_le_iff_lt (w : World) (i : Nat) :
    FVal.le SWITCH_TRESHOLD (stage_voltage w i) = false
      ↔ FVal.lt (stage_voltage w i) SWITCH_TRESHOLD = true := by
  obtain ⟨v, hv⟩ := stage_voltage_fin w i
  rw [hv, SWITCH_TRESHOLD, le_fin_fin, lt_fin_fin]
  simp

/-- C1: the meter stops at the first stage `i` whose voltage reaches 2.0 V
(the earlier stages did not reach it) and returns the resistance computed from
that stage's voltage with that stage's reference constant, having performed
exactly `i + 1` conversions (no later stage is measured); when no stage
reaches 2.0 V the 6.8k stage result is returned whatever its voltage.  The
stop test of stage `i` reads the voltage of stage `i` only. -/
theorem measureResistance_ranging (w : World) (i : Nat) (hi : i ≤ 3)
    (hprev : ∀ j, j < i → FVal.le SWITCH_TRESHOLD (stage_voltage w j) = false)
    (hstop : FVal.le SWITCH_TRESHOLD (stage_voltage w i) = true ∨ i = 3) :
    (measureResistance w).1 = divider_resistance (stage_ref i) (stage_voltage w i)
    ∧ (measureResistance w).2.adc_in = (w.advance (i + 1)).adc_in
    ∧ conv_count (measureResistance w).2.trace = conv_count w.trace + (i + 1)
    ∧ (stage_ref 0, stage_ref 1, stage_ref 2, stage_ref 3)
      = (fin 12322300, fin 1232230, fin 106230, fin 6830) := by
  have l0 := not_le_iff_lt w 0
  have l1 := not_le_iff_lt w 1
  have l2 := not_le_iff_lt w 2
  have l3 := not_le_iff_lt w 3
  have e0 := stage_voltage_eq w 0
  have e1 := stage_voltage_eq w 1
  have e2 := stage_voltage_eq w 2
  have e3 := stage_voltage_eq w 3
  interval_cases i
  · rcases hstop with hs | hs
    · have n0 : ¬ FVal.lt (stage_voltage w 0) SWITCH_TRESHOLD = true := by
        rw [← l0, hs]; simp
      rw [e0] at n0 ⊢
      simp [measureResistance, measureResistanceWith, measure_resistance_voltage_fst,
        measure_resistance_voltage_snd, conv_samples_eq, adcConvert, palSetPad, palClearPad,
        palSetPadMode, World.advance, stage_ref, conv_count, n0]
    · omega
  · have p0 := l0.mp (hprev 0 (by norm_num))
    rcases hstop with hs | hs
    · have n1 : ¬ FVal.lt (stage_voltage w 1) SWITCH_TRESHOLD = true := by
        rw [← l1, hs]; simp
      rw [e0] at p0
      rw [e1] at n1 ⊢
      simp [measureResistance, measureResistanceWith, measure_resistance_voltage_fst,
        measure_resistance_voltage_snd, conv_samples_eq, adcConvert, palSetPad, palClearPad,
        palSetPadMode, World.advance, stage_ref, conv_count, p0, n1]
    · omega
  · have p0 := l0.mp (hprev 0 (by norm_num))
    have p1 := l1.mp (hprev 1 (by norm_num))
    rcases hstop with hs | hs
    · have n2 : ¬ FVal.lt (stage_voltage w 2) SWITCH_TRESHOLD = true := by
        rw [← l2, hs]; simp
      rw [e0] at p0
      rw [e1] at p1
      rw [e2] at n2 ⊢
      simp [measureResistance, measureResistanceWith, measure_resistance_voltage_fst,
        measure_resistance_voltage_snd, conv_samples_eq, adcConvert, palSetPad, palClearPad,
        palSetPadMode, World.advance, stage_ref, conv_count, p0, p1, n2]
    · omega
  · have p0 := l0.mp (hprev 0 (by norm_num))
    have p1 := l1.mp (hprev 1 (by norm_num))
    have p2 := l2.mp (hprev 2 (by norm_num))
    rw [e0] at p0
    rw [e1] at p1
    rw [e2] at p2
    rw [e3]
    simp [measureResistance, measureResistanceWith, measure_resistance_voltage_fst,
      measure_resistance_voltage_snd, conv_samples_eq, adcConvert, palSetPad, palClearPad,
      palSetPadMode, World.advance, stage_ref, conv_count, p0, p1, p2]

/-- C1 (witness): stage 0 reads samples of 1000 (about 0.81 V) and stage 1
samples of 3000 (about 2.42 V): the meter stops at stage 1. -/
theorem measureResistance_ranging_witness :
    (measureResistance (boot_world (adc_steps [1000, 3000]))).1
      = divider_resistance (stage_ref 1) (stage_voltage (boot_world (adc_steps [1000, 3000])) 1)
    ∧ (measureResistance (boot_world (adc_steps [1000, 3000]))).2.adc_in
      = ((boot_world (adc_steps [1000, 3000])).advance (1 + 1)).adc_in
    ∧ conv_count (measureResistance (boot_world (adc_steps [1000, 3000]))).2.trace
      = conv_count (boot_world (adc_steps [1000, 3000])).trace + (1 + 1)
    ∧ (stage_ref 0, stage_ref 1, stage_ref 2, stage_ref 3)
      = (fin 12322300, fin 1232230, fin 106230, fin 6830) :=
  measureResistance_ranging (boot_world (adc_steps [1000, 3000])) 1 (by norm_num)
    (by
      intro j hj
      have hj0 : j = 0 := by omega
      subst hj0
      rw [stage_voltage_eq, get_voltage_eq, SWITCH_TRESHOLD, le_fin_fin]
      simp [boot_world, adc_steps, sum8, range8]
      norm_num)
    (by
      left
      rw [stage_voltage_eq, get_voltage_eq, SWITCH_TRESHOLD, le_fin_fin]
      simp [boot_world, adc_steps, sum8, range8]
      norm_num)

/-- C4: at each non-terminal stage `i` (0, 1, 2) that the meter reaches, a
reading of exactly the switch threshold 2.0 V makes the meter return that
stage's resistance, in the state right after that stage's measurement: it does
not escalate to the next reference (the test is the strict `voltage < 2.0`).
Stated for an arbitrary voltage source `mv` in place of
`measure_resistance_voltage`. -/
theorem measureResistance_threshold_stays (mv : World → FVal × World) (w : World) (i : Nat)
    (hi : i ≤ 2)
    (hprev : ∀ j, j < i → FVal.lt (mv (stage_entry mv w j)).1 SWITCH_TRESHOLD = true)
    (hthr : (mv (stage_entry mv w i)).1 = SWITCH_TRESHOLD) :
    measureResistanceWith mv w
      = (divider_resistance (stage_ref i) SWITCH_TRESHOLD, (mv (stage_entry mv w i)).2)
    ∧ FVal.lt SWITCH_TRESHOLD SWITCH_TRESHOLD = false := by
  have hT : FVal.lt SWITCH_TRESHOLD SWITCH_TRESHOLD = false := by
    simp [SWITCH_TRESHOLD, lt_fin_fin]
  refine ⟨?_, hT⟩
  interval_cases i
  · simp only [stage_entry] at hthr
    simp [measureResistanceWith, stage_entry, stage_ref, hthr, hT]
  · have p0 := hprev 0 (by norm_num)
    simp only [stage_entry] at hthr p0
    simp [measureResistanceWith, stage_entry, stage_ref, hthr, hT, p0]
  · have p0 := hprev 0 (by norm_num)
    have p1 := hprev 1 (by norm_num)
    simp only [stage_entry] at hthr p0 p1
    simp [measureResistanceWith, stage_entry, stage_ref, hthr, hT, p0, p1]

/-- C4 (witness): a voltage source that reads 1 V at the full stage and exactly
2.0 V at the 1M stage; the meter returns the 1M-stage resistance. -/
theorem measureResistance_threshold_stays_witness :
    measureResistanceWith
        (fun w => (fin (w.adc_in 0 0), adcConvert .adcResOnly 8 w)) (boot_world (adc_steps [1, 2]))
      = (divider_resistance (stage_ref 1) SWITCH_TRESHOLD,
          ((fun w => (fin (w.adc_in 0 0), adcConvert .adcResOnly 8 w))
            (stage_entry (fun w => (fin (w.adc_in 0 0), adcConvert .adcResOnly 8 w))
              (boot_world (adc_steps [1, 2])) 1)).2)
    ∧ FVal.lt SWITCH_TRESHOLD SWITCH_TRESHOLD = false :=
  measureResistance_threshold_stays
    (fun w => (fin (w.adc_in 0 0), adcConvert .adcResOnly 8 w)) (boot_world (adc_steps [1, 2])) 1
    (by norm_num)
    (by
      intro j hj
      have hj0 : j = 0 := by omega
      subst hj0
      simp [stage_entry, palSetPadMode, palClearPad, boot_world, adc_steps, SWITCH_TRESHOLD,
        lt_fin_fin]
      norm_num)
    (by
      simp [stage_entry, palSetPadMode, palClearPad, palSetPad, adcConvert, boot_world, adc_steps,
        SWITCH_TRESHOLD]
      norm_num)

/-! ### The resistance formula -/

theorem measureResistance_some_stage (w : World) :
    ∃ i, i ≤ 3 ∧ (measureResistance w).1 = divider_resistance (stage_ref i) (stage_voltage w i) := by
  have e0 := stage_voltage_eq w 0
  have e1 := stage_voltage_eq w 1
  have e2 := stage_voltage_eq w 2
  have e3 := stage_voltage_eq w 3
  by_cases h0 : FVal.lt (stage_voltage w 0) SWITCH_TRESHOLD = true
  · by_cases h1 : FVal.lt (stage_voltage w 1) SWITCH_TRESHOLD = true
    · by_cases h2 : FVal.lt (stage_voltage w 2) SWITCH_TRESHOLD = true
      · refine ⟨3, le_refl 3, ?_⟩
        rw [e0] at h0
        rw [e1] at h1
        rw [e2] at h2
        rw [e3]
        simp [measureResistance, measureResistanceWith, measure_resistance_voltage_fst,
          measure_resistance_voltage_snd, conv_samples_eq, adcConvert, palSetPad, palClearPad,
          palSetPadMode, stage_ref, h0, h1, h2]
      · refine ⟨2, by norm_num, ?_⟩
        rw [e0] at h0
        rw [e1] at h1
        rw [e2] at h2 ⊢
        simp [measureResistance, measureResistanceWith, measure_resistance_voltage_fst,
          measure_resistance_voltage_snd, conv_samples_eq, adcConvert, palSetPad, palClearPad,
          palSetPadMode, stage_ref, h0, h1, h2]
    · refine ⟨1, by norm_num, ?_⟩
      rw [e0] at h0
      rw [e1] at h1 ⊢
      simp [measureResistance, measureResistanceWith, measure_resistance_voltage_fst,
        measure_resistance_voltage_snd, conv_samples_eq, adcConvert, palSetPad, palClearPad,
        palSetPadMode, stage_ref, h0, h1]
  · refine ⟨0, by norm_num, ?_⟩
    rw [e0] at h0 ⊢
    simp [measureResistance, measureResistanceWith, measure_resistance_voltage_fst,
      measure_resistance_voltage_snd, conv_samples_eq, adcConvert, palSetPad, palClearPad,
      palSetPadMode, stage_ref, h0]

theorem divider_resistance_fin (r v : ℚ) (h0 : v ≠ 0) (h1 : v ≠ 3.3) :
    divider_resistance (fin r) (fin v) = fin (r * (1 / (3.3 / v - 1))) := by
  have hd : (3.3 : ℚ) / v - 1 ≠ 0 := by
    intro h
    apply h1
    have h2 : (3.3 : ℚ) / v = 1 := by linarith
    field_simp at h2
    linarith
  rw [divider_resistance, fin_div_fin _ _ h0, fin_sub_fin, fin_div_fin _ _ hd, fin_mul_fin]

theorem spec_resistance_fin (r v : ℚ) (h0 : v ≠ 0) (h1 : v ≠ 3.3) :
    spec_resistance (fin r) (fin v) = fin (r / (1 / (3.3 / v) - 1)) := by
  have hq : (3.3 : ℚ) / v ≠ 0 := by
    apply div_ne_zero
    · norm_num
    · exact h0
  have hd : (1 : ℚ) / (3.3 / v) - 1 ≠ 0 := by
    intro h
    apply h1
    have h2 : (1 : ℚ) / (3.3 / v) = 1 := by linarith
    field_simp at h2
    linarith
  rw [spec_resistance, fin_div_fin _ _ h0, fin_div_fin _ _ hq, fin_sub_fin, fin_div_fin _ _ hd]

/-- C2 (as stated, refuted): at the averaged raw sample 2048 (1.65 V) the full
stage computes exactly 12322300 ohms, while `12322300 / (1/(3.3/1.65) - 1)` is
-24644600; the two differ by more than 1e-3 of the latter.  Likewise a run whose
eight samples are all 3072 (2.475 V) returns 36966900 ohms from the full stage,
while the specification's formula gives -49289200 (and 12322300/3, again not
36966900, if its denominator is read as `1/((3.3/V) - 1)`). -/
theorem spec_formula_differs :
    get_voltage 2048 = fin 1.65
    ∧ divider_resistance (fin 12322300) (get_voltage 2048) = fin 12322300
    ∧ spec_resistance (fin 12322300) (get_voltage 2048) = fin (-24644600)
    ∧ (1e-3 : ℚ) * |(-24644600 : ℚ)| < |(12322300 : ℚ) - (-24644600)|
    ∧ (measureResistance (boot_world (adc_steps [3072]))).1 = fin 36966900
    ∧ spec_resistance (fin 12322300) (stage_voltage (boot_world (adc_steps [3072])) 0)
        = fin (-49289200)
    ∧ stage_voltage (boot_world (adc_steps [3072])) 0 = fin 2.475
    ∧ (12322300 : ℚ) / (1 / (3.3 / 2.475 - 1)) ≠ 36966900 := by
  have hv : get_voltage 2048 = fin 1.65 := by
    rw [get_voltage_eq]; norm_num
  have hs : stage_voltage (boot_world (adc_steps [3072])) 0 = fin 2.475 := by
    rw [stage_voltage_eq, get_voltage_eq]
    simp [boot_world, adc_steps, sum8, range8]
    norm_num
  have hl : FVal.le SWITCH_TRESHOLD (stage_voltage (boot_world (adc_steps [3072])) 0) = true := by
    rw [hs, SWITCH_TRESHOLD, le_fin_fin]
    simp
    norm_num
  have hn : ¬ FVal.lt (stage_voltage (boot_world (adc_steps [3072])) 0) SWITCH_TRESHOLD = true := by
    rw [← not_le_iff_lt, hl]; simp
  refine ⟨hv, ?_, ?_, ?_, ?_, ?_, hs, by norm_num⟩
  · rw [hv, divider_resistance_fin _ _ (by norm_num) (by norm_num)]
    norm_num
  · rw [hv, spec_resistance_fin _ _ (by norm_num) (by norm_num)]
    norm_num
  · norm_num [abs_of_pos, abs_of_neg]
  · have e0 := stage_voltage_eq (boot_world (adc_steps [3072])) 0
    have hr : (measureResistance (boot_world (adc_steps [3072]))).1
        = divider_resistance (fin 12322300) (stage_voltage (boot_world (adc_steps [3072])) 0) := by
      rw [e0] at hn ⊢
      simp [measureResistance, measureResistanceWith, measure_resistance_voltage_fst,
        measure_resistance_voltage_snd, conv_samples_eq, adcConvert, palSetPad, palClearPad,
        palSetPadMode, hn]
    rw [hr, hs, divider_resistance_fin _ _ (by norm_num) (by norm_num)]
    norm_num
  · rw [hs, spec_resistance_fin _ _ (by norm_num) (by norm_num)]
    norm_num

/-- C2 (amended): the value `measureResistance` returns is, for the stage `i` it
stops at, `R_ref * (1/((3.3 / V) - 1))` evaluated at that stage's reference and
voltage; for a finite voltage `v` other than 0 and 3.3 this is the rational
number `r * (1/(3.3/v - 1))`; in particular at the averaged raw sample 2048
(1.65 V) with reference 12322300 it is `12322300 * (1/(3.3/1.65 - 1))`, which is
12322300. -/
theorem stage_resistance_value (w : World) (r v : ℚ) (h0 : v ≠ 0) (h1 : v ≠ 3.3) :
    (∃ i, i ≤ 3 ∧ (measureResistance w).1
        = stage_ref i * (fin 1 / ((fin 3.3 / stage_voltage w i) - fin 1)))
    ∧ fin r * (fin 1 / ((fin 3.3 / fin v) - fin 1)) = fin (r * (1 / (3.3 / v - 1)))
    ∧ divider_resistance (fin r) (fin v) = fin (r * (1 / (3.3 / v - 1)))
    ∧ divider_resistance (fin 12322300) (get_voltage 2048)
        = fin (12322300 * (1 / (3.3 / 1.65 - 1)))
    ∧ (12322300 * (1 / (3.3 / 1.65 - 1)) : ℚ) = 12322300 := by
  refine ⟨measureResistance_some_stage w, divider_resistance_fin r v h0 h1,
    divider_resistance_fin r v h0 h1, ?_, by norm_num⟩
  have hv : get_voltage 2048 = fin 1.65 := by
    rw [get_voltage_eq]; norm_num
  rw [hv, divider_resistance_fin _ _ (by norm_num) (by norm_num)]

/-- C2 (amended, witness): a state whose next conversion reads 3072, reference
12322300 and voltage 1.65 V. -/
theorem stage_resistance_value_witness :
    (∃ i, i ≤ 3 ∧ (measureResistance (boot_world (adc_steps [3072]))).1
        = stage_ref i * (fin 1 / ((fin 3.3 / stage_voltage (boot_world (adc_steps [3072])) i)
            - fin 1)))
    ∧ fin 12322300 * (fin 1 / ((fin 3.3 / fin 1.65) - fin 1))
        = fin (12322300 * (1 / (3.3 / 1.65 - 1)))
    ∧ divider_resistance (fin 12322300) (fin 1.65) = fin (12322300 * (1 / (3.3 / 1.65 - 1)))
    ∧ divider_resistance (fin 12322300) (get_voltage 2048)
        = fin (12322300 * (1 / (3.3 / 1.65 - 1)))
    ∧ (12322300 * (1 / (3.3 / 1.65 - 1)) : ℚ) = 12322300 :=
  stage_resistance_value (boot_world (adc_steps [3072])) 12322300 1.65 (by norm_num) (by norm_num)

/-! ### The electrochemical channels -/

theorem measure_sensors_split (w : World) :
    measure_sensors w = run measure_sensors_elchem (elchem_entry w) := by
  simp [measure_sensors, measure_sensors_body, run, elchem_entry, List.foldl_append]

theorem run_elchem_no (w : World) :
    (run measure_sensors_elchem w).no_gas_avg = fin (no_formula (conv_samples w)) := by
  have h8 : (8 : ℚ) ≠ 0 := by norm_num
  have hs : (1.5e-5 : ℚ) ≠ 0 := by norm_num
  simp [run, measure_sensors_elchem, range8, ADC_GRP1_BUF_DEPTH, adcConvert, chMtxUnlock,
    ConvGroup.num_channels, get_voltage_eq, fin_add_fin, FVal.ofNat, no_formula,
    conv_samples_eq]
  rw [fin_div_fin _ _ h8, fin_sub_fin, fin_div_fin _ _ hs]
  congr 1
  ring

theorem run_elchem_so2 (w : World) :
    (run measure_sensors_elchem w).so2_gas_avg = fin (so2_formula (conv_samples w)) := by
  have h8 : (8 : ℚ) ≠ 0 := by norm_num
  have hs : (2e-4 : ℚ) ≠ 0 := by norm_num
  simp [run, measure_sensors_elchem, range8, ADC_GRP1_BUF_DEPTH, adcConvert, chMtxUnlock,
    ConvGroup.num_channels, get_voltage_eq, fin_add_fin, FVal.ofNat, so2_formula,
    conv_samples_eq]
  rw [fin_div_fin _ _ h8, fin_sub_fin, fin_div_fin _ _ hs]
  congr 1
  ring

theorem measureResistance_frame (w : World) :
    ∃ k, k ≤ 3
      ∧ (measureResistance w).2.trace = w.trace ++ ranging_events k
      ∧ (measureResistance w).2.adc_in = (w.advance (k + 1)).adc_in
      ∧ (measureResistance w).2.snapshot = w.snapshot
      ∧ (measureResistance w).2.analog_data = w.analog_data
      ∧ (∀ p, on_sel_line (.palClearPad p) = true → (measureResistance w).2.odr p = w.odr p) := by
  by_cases h0 : FVal.lt (measure_resistance_voltage (stage_entry measure_resistance_voltage w 0)).1
      SWITCH_TRESHOLD = true
  · by_cases h1 : FVal.lt
        (measure_resistance_voltage (stage_entry measure_resistance_voltage w 1)).1
        SWITCH_TRESHOLD = true
    · by_cases h2 : FVal.lt
          (measure_resistance_voltage (stage_entry measure_resistance_voltage w 2)).1
          SWITCH_TRESHOLD = true
      · refine ⟨3, by norm_num, ?_⟩
        simp only [stage_entry] at h0 h1 h2
        simp only [measureResistance, measureResistanceWith, h0, h1, h2, if_true, if_false]
        refine ⟨?_, ?_, ?_, ?_, ?_⟩
        · simp [measure_resistance_voltage_snd, adcConvert, palSetPad, palClearPad,
            palSetPadMode, ranging_events]
        · simp [measure_resistance_voltage_snd, adcConvert, palSetPad, palClearPad,
            palSetPadMode, World.advance]
        · simp [measure_resistance_voltage_snd, adcConvert, palSetPad, palClearPad,
            palSetPadMode, World.snapshot]
        · simp [measure_resistance_voltage_snd, adcConvert, palSetPad, palClearPad,
            palSetPadMode]
        · intro p hp
          simp only [on_sel_line, decide_eq_true_eq] at hp
          rcases hp with hp | hp | hp <;> subst hp <;>
          simp [measure_resistance_voltage_snd, adcConvert, palSetPad, palClearPad,
            palSetPadMode]
      · refine ⟨2, by norm_num, ?_⟩
        simp only [stage_entry] at h0 h1 h2
        simp only [measureResistance, measureResistanceWith, h0, h1, h2, if_true, if_false]
        refine ⟨?_, ?_, ?_, ?_, ?_⟩
        · simp [measure_resistance_voltage_snd, adcConvert, palSetPad, palClearPad,
            palSetPadMode, ranging_events]
        · simp [measure_resistance_voltage_snd, adcConvert, palSetPad, palClearPad,
            palSetPadMode, World.advance]
        · simp [measure_resistance_voltage_snd, adcConvert, palSetPad, palClearPad,
            palSetPadMode, World.snapshot]
        · simp [measure_resistance_voltage_snd, adcConvert, palSetPad, palClearPad,
            palSetPadMode]
        · intro p hp
          simp only [on_sel_line, decide_eq_true_eq] at hp
          rcases hp with hp | hp | hp <;> subst hp <;>
          simp [measure_resistance_voltage_snd, adcConvert, palSetPad, palClearPad,
            palSetPadMode]
    · refine ⟨1, by norm_num, ?_⟩
      simp only [stage_entry] at h0 h1
      simp only [measureResistance, measureResistanceWith, h0, h1, if_true, if_false]
      refine ⟨?_, ?_, ?_, ?_, ?_⟩
      · simp [measure_resistance_voltage_snd, adcConvert, palSetPad, palClearPad,
          palSetPadMode, ranging_events]
      · simp [measure_resistance_voltage_snd, adcConvert, palSetPad, palClearPad,
          palSetPadMode, World.advance]
      · simp [measure_resistance_voltage_snd, adcConvert, palSetPad, palClearPad,
          palSetPadMode, World.snapshot]
      · simp [measure_resistance_voltage_snd, adcConvert, palSetPad, palClearPad,
          palSetPadMode]
      · intro p hp
        simp only [on_sel_line, decide_eq_true_eq] at hp
        rcases hp with hp | hp | hp <;> subst hp <;>
        simp [measure_resistance_voltage_snd, adcConvert, palSetPad, palClearPad,
          palSetPadMode]
  · refine ⟨0, by norm_num, ?_⟩
    simp only [stage_entry] at h0
    simp only [measureResistance, measureResistanceWith, h0, if_true, if_false]
    refine ⟨?_, ?_, ?_, ?_, ?_⟩
    · simp [measure_resistance_voltage_snd, adcConvert, palSetPad, palClearPad,
        palSetPadMode, ranging_events]
    · simp [measure_resistance_voltage_snd, adcConvert, palSetPad, palClearPad,
        palSetPadMode, World.advance]
    · simp [measure_resistance_voltage_snd, adcConvert, palSetPad, palClearPad,
        palSetPadMode, World.snapshot]
    · simp [measure_resistance_voltage_snd, adcConvert, palSetPad, palClearPad,
        palSetPadMode]
    · intro p hp
      simp only [on_sel_line, decide_eq_true_eq] at hp
      rcases hp with hp | hp | hp <;> subst hp <;>
      simp [measure_resistance_voltage_snd, adcConvert, palSetPad, palClearPad,
        palSetPadMode]

theorem select_sensor_trace (s : sensor_types_t) (w : World) :
    (select_sensor s w).trace = w.trace ++ select_events s := by
  cases s <;> simp [select_sensor, select_events, palSetPad, palClearPad]

theorem elchem_entry_eq (w : World) :
    elchem_entry w
      = assign_nh3_gas (chThdSleepMilliseconds 5 (select_sensor .NH3_SENSOR
          (assign_no2_gas (select_sensor .NO2_SENSOR
            (assign_co_gas (select_sensor .CO_SENSOR (chMtxLock w))))))) := rfl

theorem elchem_entry_trace (w : World) :
    ∃ k1 k2 k3, k1 ≤ 3 ∧ k2 ≤ 3 ∧ k3 ≤ 3
      ∧ (elchem_entry w).trace
        = w.trace ++ ([Event.chMtxLock] ++ select_events .CO_SENSOR ++ ranging_events k1
            ++ select_events .NO2_SENSOR ++ ranging_events k2
            ++ select_events .NH3_SENSOR ++ [Event.chThdSleepMilliseconds 5]
            ++ ranging_events k3) := by
  obtain ⟨k1, hk1, t1, -⟩ := measureResistance_frame (select_sensor .CO_SENSOR (chMtxLock w))
  obtain ⟨k2, hk2, t2, -⟩ := measureResistance_frame (select_sensor .NO2_SENSOR
    (assign_co_gas (select_sensor .CO_SENSOR (chMtxLock w))))
  obtain ⟨k3, hk3, t3, -⟩ := measureResistance_frame (chThdSleepMilliseconds 5
    (select_sensor .NH3_SENSOR (assign_no2_gas (select_sensor .NO2_SENSOR
      (assign_co_gas (select_sensor .CO_SENSOR (chMtxLock w)))))))
  refine ⟨k1, k2, k3, hk1, hk2, hk3, ?_⟩
  rw [elchem_entry_eq]
  show (measureResistance _).2.trace = _
  rw [t3]
  show (select_sensor .NH3_SENSOR _).trace ++ [Event.chThdSleepMilliseconds 5] ++ _ = _
  rw [select_sensor_trace]
  show (measureResistance _).2.trace ++ _ ++ _ ++ _ = _
  rw [t2, select_sensor_trace]
  show (measureResistance _).2.trace ++ _ ++ _ ++ _ ++ _ ++ _ = _
  rw [t1, select_sensor_trace]
  simp [chMtxLock, List.append_assoc]

theorem run_elchem_trace (w : World) :
    (run measure_sensors_elchem w).trace
      = w.trace ++ [Event.adcConvert .adcElChemOnlu 8, Event.chMtxUnlock] := by
  simp [run, measure_sensors_elchem, range8, ADC_GRP1_BUF_DEPTH, adcConvert, chMtxUnlock]

theorem ranging_events_no_sleep (k : Nat) : (ranging_events k).filter is_sleep = [] := by
  simp only [ranging_events]
  split_ifs <;> simp [is_sleep]

theorem ranging_events_no_sel (k : Nat) : (ranging_events k).filter on_sel_line = [] := by
  simp only [ranging_events]
  split_ifs <;> simp [on_sel_line]

theorem ranging_events_no_elchem (k : Nat) : (ranging_events k).filter is_elchem_conv = [] := by
  simp only [ranging_events]
  split_ifs <;> simp [is_elchem_conv]

/-- C7: the calls of every `measure_sensors` cycle are, in order: the lock;
the selection of CO and one resistance measurement; the selection of NO2 and
one resistance measurement; the selection of NH3, one 5 ms delay, and one
resistance measurement (whose conversions all come after the delay); one
2-channel conversion; the unlock.  The delay primitive is called exactly once
(with 5 ms), the calls on the selection lines are exactly those selecting CO,
NO2, NH3 in this order (O3 is never selected), and the 2-channel conversion
runs exactly once. -/
theorem measure_sensors_call_order (w : World) :
    ∃ k1 k2 k3, k1 ≤ 3 ∧ k2 ≤ 3 ∧ k3 ≤ 3
      ∧ (measure_sensors w).trace = w.trace ++ cycle_events k1 k2 k3
      ∧ cycle_events k1 k2 k3
        = [Event.chMtxLock]
          ++ select_events .CO_SENSOR ++ ranging_events k1
          ++ select_events .NO2_SENSOR ++ ranging_events k2
          ++ select_events .NH3_SENSOR ++ [Event.chThdSleepMilliseconds 5] ++ ranging_events k3
          ++ [Event.adcConvert .adcElChemOnlu 8, Event.chMtxUnlock]
      ∧ (cycle_events k1 k2 k3).filter is_sleep = [Event.chThdSleepMilliseconds 5]
      ∧ (cycle_events k1 k2 k3).filter on_sel_line
        = select_events .CO_SENSOR ++ select_events .NO2_SENSOR ++ select_events .NH3_SENSOR
      ∧ (cycle_events k1 k2 k3).filter is_elchem_conv = [Event.adcConvert .adcElChemOnlu 8] := by
  obtain ⟨k1, k2, k3, hk1, hk2, hk3, ht⟩ := elchem_entry_trace w
  refine ⟨k1, k2, k3, hk1, hk2, hk3, ?_, rfl, ?_, ?_, ?_⟩
  · rw [measure_sensors_split, run_elchem_trace, ht]
    simp [cycle_events, List.append_assoc]
  · simp [cycle_events, List.filter_append, ranging_events_no_sleep, select_events, is_sleep]
  · simp [cycle_events, List.filter_append, ranging_events_no_sel, select_events, on_sel_line]
  · simp [cycle_events, List.filter_append, ranging_events_no_elchem, select_events,
      is_elchem_conv]

/-! ### The snapshot -/

theorem measureResistance_snapshot (w : World) :
    (measureResistance w).2.snapshot = w.snapshot := by
  obtain ⟨k, -, -, -, h, -⟩ := measureResistance_frame w
  exact h

theorem measureResistance_analog_data (w : World) :
    (measureResistance w).2.analog_data = w.analog_data := by
  obtain ⟨k, -, -, -, -, h, -⟩ := measureResistance_frame w
  exact h

theorem select_sensor_snapshot (s : sensor_types_t) (w : World) :
    (select_sensor s w).snapshot = w.snapshot := by
  cases s <;> rfl

theorem select_sensor_analog_data (s : sensor_types_t) (w : World) :
    (select_sensor s w).analog_data = w.analog_data := by
  cases s <;> rfl

theorem assign_co_gas_snapshot (w : World) :
    (assign_co_gas w).snapshot = ((measureResistance w).1, w.snapshot.2) := by
  have h := measureResistance_snapshot w
  simp only [World.snapshot, Prod.mk.injEq] at h ⊢
  obtain ⟨-, h2, h3, h4, h5⟩ := h
  exact ⟨rfl, h2, h3, h4, h5⟩

theorem assign_no2_gas_snapshot (w : World) :
    (assign_no2_gas w).snapshot = (w.snapshot.1, (measureResistance w).1, w.snapshot.2.2) := by
  have h := measureResistance_snapshot w
  simp only [World.snapshot, Prod.mk.injEq] at h ⊢
  obtain ⟨h1, -, h3, h4, h5⟩ := h
  exact ⟨h1, rfl, h3, h4, h5⟩

theorem assign_nh3_gas_snapshot (w : World) :
    (assign_nh3_gas w).snapshot
      = (w.snapshot.1, w.snapshot.2.1, (measureResistance w).1, w.snapshot.2.2.2) := by
  have h := measureResistance_snapshot w
  simp only [World.snapshot, Prod.mk.injEq] at h ⊢
  obtain ⟨h1, h2, -, h4, h5⟩ := h
  exact ⟨h1, h2, rfl, h4, h5⟩

theorem run_elchem_snapshot (w : World) :
    (run measure_sensors_elchem w).snapshot
      = (w.snapshot.1, w.snapshot.2.1, w.snapshot.2.2.1,
          fin (no_formula (conv_samples w)), fin (so2_formula (conv_samples w))) := by
  have hno := run_elchem_no w
  have hso := run_elchem_so2 w
  simp only [World.snapshot, Prod.mk.injEq]
  refine ⟨?_, ?_, ?_, hno, hso⟩
  · simp [run, measure_sensors_elchem, range8, ADC_GRP1_BUF_DEPTH, adcConvert, chMtxUnlock]
  · simp [run, measure_sensors_elchem, range8, ADC_GRP1_BUF_DEPTH, adcConvert, chMtxUnlock]
  · simp [run, measure_sensors_elchem, range8, ADC_GRP1_BUF_DEPTH, adcConvert, chMtxUnlock]

theorem measure_sensors_snapshot (w : World) :
    (measure_sensors w).snapshot
      = ((measureResistance (select_sensor .CO_SENSOR (chMtxLock w))).1,
          (measureResistance (select_sensor .NO2_SENSOR
            (assign_co_gas (select_sensor .CO_SENSOR (chMtxLock w))))).1,
          (measureResistance (chThdSleepMilliseconds 5 (select_sensor .NH3_SENSOR
            (assign_no2_gas (select_sensor .NO2_SENSOR
              (assign_co_gas (select_sensor .CO_SENSOR (chMtxLock w)))))))).1,
          fin (no_formula (conv_samples (elchem_entry w))),
          fin (so2_formula (conv_samples (elchem_entry w)))) := by
  have hs : ∀ ms (v : World), (chThdSleepMilliseconds ms v).snapshot = v.snapshot :=
    fun _ _ => rfl
  rw [measure_sensors_split, run_elchem_snapshot]
  simp only [elchem_entry_eq, assign_nh3_gas_snapshot, hs, select_sensor_snapshot,
    assign_no2_gas_snapshot, assign_co_gas_snapshot]

/-- C8: `get_analog_sensor_values` returns the five snapshot fields in the
order `(co, no2, nh3, no, so2)` and changes none of them; called after a
`measure_sensors` cycle it returns the three resistances that the cycle
measured for CO, NO2 and NH3 and the NO and SO2 values the cycle computed
from its 2-channel conversion; a second read with no cycle in between returns
the same tuple. -/
theorem get_analog_sensor_values_snapshot (w : World) :
    (get_analog_sensor_values w).1
      = (w.co_gas, w.no2_gas, w.nh3_gas, w.no_gas_avg, w.so2_gas_avg)
    ∧ (get_analog_sensor_values w).2.snapshot = w.snapshot
    ∧ (get_analog_sensor_values (measure_sensors w)).1
      = ((measureResistance (select_sensor .CO_SENSOR (chMtxLock w))).1,
          (measureResistance (select_sensor .NO2_SENSOR
            (assign_co_gas (select_sensor .CO_SENSOR (chMtxLock w))))).1,
          (measureResistance (chThdSleepMilliseconds 5 (select_sensor .NH3_SENSOR
            (assign_no2_gas (select_sensor .NO2_SENSOR
              (assign_co_gas (select_sensor .CO_SENSOR (chMtxLock w)))))))).1,
          fin (no_formula (conv_samples (elchem_entry w))),
          fin (so2_formula (conv_samples (elchem_entry w))))
    ∧ (get_analog_sensor_values (get_analog_sensor_values w).2).1
      = (get_analog_sensor_values w).1 := by
  refine ⟨rfl, rfl, ?_, rfl⟩
  rw [← measure_sensors_snapshot]
  rfl

/-! ### Intermediate points of a cycle -/

theorem run_points_cons (f : World → World) (fs : List (World → World)) (w : World) :
    run_points (f :: fs) w = w :: run_points fs (f w) := rfl

theorem run_cons (f : World → World) (fs : List (World → World)) (w : World) :
    run (f :: fs) w = run fs (f w) := rfl

theorem run_points_snoc (fs : List (World → World)) (f : World → World) (w : World) :
    run_points (fs ++ [f]) w = run_points fs w ++ [f (run fs w)] := by
  induction fs generalizing w with
  | nil => rfl
  | cons g gs ih =>
    rw [List.cons_append, run_points_cons, run_points_cons, run_cons, ih (g w), List.cons_append]

theorem run_points_invariant (I : World → Prop) (fs : List (World → World))
    (hpres : ∀ f, f ∈ fs → ∀ w, I w → I (f w)) (w : World) (hw : I w) :
    ∀ p, p ∈ run_points fs w → I p := by
  induction fs generalizing w with
  | nil =>
    intro p hp
    have : p = w := by simpa [run_points] using hp
    rw [this]; exact hw
  | cons g gs ih =>
    intro p hp
    rw [run_points_cons, List.mem_cons] at hp
    rcases hp with hp | hp
    · rw [hp]; exact hw
    · exact ih (fun f hf => hpres f (List.mem_cons_of_mem _ hf)) (g w)
        (hpres g (List.mem_cons_self _ _) w hw) p hp

theorem measure_sensors_body_eq :
    measure_sensors_body
      = chMtxLock :: ((measure_sensors_resistive.tail ++ measure_sensors_elchem.dropLast)
          ++ [chMtxUnlock]) := by
  simp [measure_sensors_body, measure_sensors_resistive, measure_sensors_elchem, range8,
    ADC_GRP1_BUF_DEPTH, List.dropLast]

theorem middle_keeps_lock (f : World → World)
    (hf : f ∈ measure_sensors_resistive.tail ++ measure_sensors_elchem.dropLast) (w : World) :
    (f w).analog_data = w.analog_data := by
  simp only [measure_sensors_resistive, measure_sensors_elchem, range8, ADC_GRP1_BUF_DEPTH,
    List.tail, List.map, List.cons_append, List.nil_append, List.dropLast, List.mem_cons,
    List.mem_append, List.mem_singleton, List.not_mem_nil, or_false] at hf
  rcases hf with h | h | h | h | h | h | h | h | h | h | h | h | h | h | h | h | h | h | h |
    h | h | h | h | h | h | h | h | h | h | h | h | h
    <;> subst h
  all_goals first
    | rfl
    | exact select_sensor_analog_data _ _
    | exact measureResistance_analog_data _

theorem run_snoc (fs : List (World → World)) (f : World → World) (w : World) :
    run (fs ++ [f]) w = f (run fs w) := by
  simp [run, List.foldl_append]

theorem measureResistance_stage0 (w : World)
    (h : FVal.lt (stage_voltage w 0) SWITCH_TRESHOLD = false) :
    (measureResistance w).1 = divider_resistance (fin 12322300) (stage_voltage w 0) := by
  have e0 := stage_voltage_eq w 0
  rw [e0] at h ⊢
  simp [measureResistance, measureResistanceWith, measure_resistance_voltage_fst,
    measure_resistance_voltage_snd, conv_samples_eq, adcConvert, palSetPad, palClearPad,
    palSetPadMode, h]

theorem measureResistance_3072 (w : World) (h : ∀ i, w.adc_in 0 i = 3072) :
    (measureResistance w).1 = fin 36966900 := by
  have hs : stage_voltage w 0 = fin 2.475 := by
    rw [stage_voltage_eq, get_voltage_eq]
    simp [sum8, range8, h]
    norm_num
  have hl : FVal.lt (stage_voltage w 0) SWITCH_TRESHOLD = false := by
    rw [hs, SWITCH_TRESHOLD, lt_fin_fin]
    simp
    norm_num
  rw [measureResistance_stage0 w hl, hs, divider_resistance_fin _ _ (by norm_num) (by norm_num)]
  norm_num

theorem measureResistance_adc_const (c : Nat) (w : World) (h : ∀ k i, w.adc_in k i = c) :
    ∀ k i, (measureResistance w).2.adc_in k i = c := by
  obtain ⟨n, -, -, ha, -⟩ := measureResistance_frame w
  intro k i
  rw [ha]
  exact h _ _

/-- C9 (as stated, refuted): started after reset with every sample reading
3072, the cycle passes through a point (right after `co_gas = measureResistance()`)
where the snapshot is `(36966900, 0, 0, 0, 0)`: the new CO value next to the old
NO2 value 0, while the pre-cycle snapshot is `(0, 0, 0, 0, 0)` and the post-cycle
NO2 value is 36966900. -/
theorem snapshot_partially_updated :
    assign_co_gas (select_sensor .CO_SENSOR (chMtxLock (boot_world (fun _ _ => 3072))))
      ∈ run_points measure_sensors_body (boot_world (fun _ _ => 3072))
    ∧ (assign_co_gas (select_sensor .CO_SENSOR (chMtxLock (boot_world (fun _ _ => 3072))))).snapshot
      = (fin 36966900, fin 0, fin 0, fin 0, fin 0)
    ∧ (boot_world (fun _ _ => 3072)).snapshot = (fin 0, fin 0, fin 0, fin 0, fin 0)
    ∧ (measure_sensors (boot_world (fun _ _ => 3072))).snapshot.2.1 = fin 36966900
    ∧ (assign_co_gas (select_sensor .CO_SENSOR (chMtxLock (boot_world (fun _ _ => 3072))))).snapshot
      ≠ (boot_world (fun _ _ => 3072)).snapshot
    ∧ (assign_co_gas (select_sensor .CO_SENSOR (chMtxLock (boot_world (fun _ _ => 3072))))).snapshot
      ≠ (measure_sensors (boot_world (fun _ _ => 3072))).snapshot := by
  have h1 : (measureResistance
      (select_sensor .CO_SENSOR (chMtxLock (boot_world (fun _ _ => 3072))))).1
      = fin 36966900 := measureResistance_3072 _ (fun _ => rfl)
  have hp : (assign_co_gas
      (select_sensor .CO_SENSOR (chMtxLock (boot_world (fun _ _ => 3072))))).snapshot
      = (fin 36966900, fin 0, fin 0, fin 0, fin 0) := by
    rw [assign_co_gas_snapshot, h1]
    rfl
  have h2 : (measure_sensors (boot_world (fun _ _ => 3072))).snapshot.2.1 = fin 36966900 := by
    rw [measure_sensors_snapshot]
    apply measureResistance_3072
    intro i
    exact measureResistance_adc_const 3072
      (select_sensor .CO_SENSOR (chMtxLock (boot_world (fun _ _ => 3072))))
      (fun _ _ => rfl) 0 i
  have h0 : (boot_world (fun _ _ => 3072)).snapshot = (fin 0, fin 0, fin 0, fin 0, fin 0) := rfl
  refine ⟨?_, hp, h0, h2, ?_, ?_⟩
  · rw [measure_sensors_body_eq, run_points_cons]
    exact List.mem_cons_of_mem _ (List.mem_cons_of_mem _ (List.mem_cons_of_mem _
      (List.mem_cons_self _ _)))
  · rw [hp, h0]
    intro h
    simp only [Prod.mk.injEq] at h
    have h3 := h.1
    injection h3 with h3
    norm_num at h3
  · rw [hp]
    intro h
    have h3 : (fin 0 : FVal) = fin 36966900 := by
      rw [← h2, ← h]
    injection h3 with h3
    norm_num at h3

/-- C9 (amended): at every point of a `measure_sensors` cycle (before the
first statement, and after each statement) at which the lock is not held, the
five snapshot fields hold the complete pre-cycle tuple or the complete
post-cycle tuple; the cycle ends with the lock released. -/
theorem snapshot_whole_when_unlocked (w p : World)
    (hp : p ∈ run_points measure_sensors_body w) (hfree : p.analog_data = false) :
    (p.snapshot = w.snapshot ∨ p.snapshot = (measure_sensors w).snapshot)
    ∧ (measure_sensors w).analog_data = false := by
  have hfin : measure_sensors w
      = chMtxUnlock (run (measure_sensors_resistive.tail ++ measure_sensors_elchem.dropLast)
          (chMtxLock w)) := by
    rw [measure_sensors, measure_sensors_body_eq, run_cons, run_snoc]
  refine ⟨?_, ?_⟩
  · rw [measure_sensors_body_eq, run_points_cons, List.mem_cons, run_points_snoc,
      List.mem_append, List.mem_singleton] at hp
    rcases hp with hp | hp | hp
    · left; rw [hp]
    · exfalso
      have hl := run_points_invariant (fun v => v.analog_data = true)
        (measure_sensors_resistive.tail ++ measure_sensors_elchem.dropLast)
        (fun f hf v hv => by
          show (f v).analog_data = true
          rw [middle_keeps_lock f hf v]; exact hv)
        (chMtxLock w) rfl p hp
      have hl2 : p.analog_data = true := hl
      rw [hfree] at hl2
      exact Bool.false_ne_true hl2
    · right; rw [hp, hfin]
  · rw [hfin]
    rfl

/-- C9 (amended, witness): the cycle started after reset with every sample
reading 3072, at its first point. -/
theorem snapshot_whole_when_unlocked_witness :
    ((boot_world (fun _ _ => 3072)).snapshot = (boot_world (fun _ _ => 3072)).snapshot
      ∨ (boot_world (fun _ _ => 3072)).snapshot
        = (measure_sensors (boot_world (fun _ _ => 3072))).snapshot)
    ∧ (measure_sensors (boot_world (fun _ _ => 3072))).analog_data = false :=
  snapshot_whole_when_unlocked (boot_world (fun _ _ => 3072)) (boot_world (fun _ _ => 3072))
    (by rw [measure_sensors_body_eq, run_points_cons]; exact List.mem_cons_self _ _)
    rfl

/-! ### The stage a measurement stops at -/

theorem measureResistance_stop (w : World) :
    (measureResistance w).1
        = divider_resistance (stage_ref (stop_stage w)) (stage_voltage w (stop_stage w))
    ∧ (measureResistance w).2.trace = w.trace ++ ranging_events (stop_stage w)
    ∧ (measureResistance w).2.adc_in = (w.advance (stop_stage w + 1)).adc_in
    ∧ (∀ n, n < 3 → (measureResistance w).2.mode (bypass_line n)
        = if n < stop_stage w then PadMode.PAL_MODE_OUTPUT_PUSHPULL else PadMode.PAL_MODE_INPUT)
    ∧ (∀ n, n < 3 → (measureResistance w).2.odr (bypass_line n) = decide (n < stop_stage w)) := by
  have e0 := stage_voltage_eq w 0
  have e1 := stage_voltage_eq w 1
  have e2 := stage_voltage_eq w 2
  have e3 := stage_voltage_eq w 3
  by_cases h0 : FVal.lt (stage_voltage w 0) SWITCH_TRESHOLD = true
  · by_cases h1 : FVal.lt (stage_voltage w 1) SWITCH_TRESHOLD = true
    · by_cases h2 : FVal.lt (stage_voltage w 2) SWITCH_TRESHOLD = true
      · have hk : stop_stage w = 3 := by simp [stop_stage, h0, h1, h2]
        rw [hk, e3]
        rw [e0] at h0
        rw [e1] at h1
        rw [e2] at h2
        refine ⟨?_, ?_, ?_, ?_, ?_⟩
        · simp [measureResistance, measureResistanceWith, measure_resistance_voltage_fst,
            measure_resistance_voltage_snd, conv_samples_eq, adcConvert, palSetPad, palClearPad,
            palSetPadMode, stage_ref, h0, h1, h2]
        · simp [measureResistance, measureResistanceWith, measure_resistance_voltage_fst,
            measure_resistance_voltage_snd, conv_samples_eq, adcConvert, palSetPad, palClearPad,
            palSetPadMode, ranging_events, h0, h1, h2]
        · simp [measureResistance, measureResistanceWith, measure_resistance_voltage_fst,
            measure_resistance_voltage_snd, conv_samples_eq, adcConvert, palSetPad, palClearPad,
            palSetPadMode, World.advance, h0, h1, h2]
        · intro n hn
          interval_cases n <;>
          simp [measureResistance, measureResistanceWith, measure_resistance_voltage_fst,
            measure_resistance_voltage_snd, conv_samples_eq, adcConvert, palSetPad, palClearPad,
            palSetPadMode, bypass_line, h0, h1, h2]
        · intro n hn
          interval_cases n <;>
          simp [measureResistance, measureResistanceWith, measure_resistance_voltage_fst,
            measure_resistance_voltage_snd, conv_samples_eq, adcConvert, palSetPad, palClearPad,
            palSetPadMode, bypass_line, h0, h1, h2]
      · have hk : stop_stage w = 2 := by simp [stop_stage, h0, h1, h2]
        rw [hk]
        rw [e2] at h2 ⊢
        rw [e0] at h0
        rw [e1] at h1
        refine ⟨?_, ?_, ?_, ?_, ?_⟩
        · simp [measureResistance, measureResistanceWith, measure_resistance_voltage_fst,
            measure_resistance_voltage_snd, conv_samples_eq, adcConvert, palSetPad, palClearPad,
            palSetPadMode, stage_ref, h0, h1, h2]
        · simp [measureResistance, measureResistanceWith, measure_resistance_voltage_fst,
            measure_resistance_voltage_snd, conv_samples_eq, adcConvert, palSetPad, palClearPad,
            palSetPadMode, ranging_events, h0, h1, h2]
        · simp [measureResistance, measureResistanceWith, measure_resistance_voltage_fst,
            measure_resistance_voltage_snd, conv_samples_eq, adcConvert, palSetPad, palClearPad,
            palSetPadMode, World.advance, h0, h1, h2]
        · intro n hn
          interval_cases n <;>
          simp [measureResistance, measureResistanceWith, measure_resistance_voltage_fst,
            measure_resistance_voltage_snd, conv_samples_eq, adcConvert, palSetPad, palClearPad,
            palSetPadMode, bypass_line, h0, h1, h2]
        · intro n hn
          interval_cases n <;>
          simp [measureResistance, measureResistanceWith, measure_resistance_voltage_fst,
            measure_resistance_voltage_snd, conv_samples_eq, adcConvert, palSetPad, palClearPad,
            palSetPadMode, bypass_line, h0, h1, h2]
    · have hk : stop_stage w = 1 := by simp [stop_stage, h0, h1]
      rw [hk]
      rw [e1] at h1 ⊢
      rw [e0] at h0
      refine ⟨?_, ?_, ?_, ?_, ?_⟩
      · simp [measureResistance, measureResistanceWith, measure_resistance_voltage_fst,
          measure_resistance_voltage_snd, conv_samples_eq, adcConvert, palSetPad, palClearPad,
          palSetPadMode, stage_ref, h0, h1]
      · simp [measureResistance, measureResistanceWith, measure_resistance_voltage_fst,
          measure_resistance_voltage_snd, conv_samples_eq, adcConvert, palSetPad, palClearPad,
          palSetPadMode, ranging_events, h0, h1]
      · simp [measureResistance, measureResistanceWith, measure_resistance_voltage_fst,
          measure_resistance_voltage_snd, conv_samples_eq, adcConvert, palSetPad, palClearPad,
          palSetPadMode, World.advance, h0, h1]
      · intro n hn
        interval_cases n <;>
        simp [measureResistance, measureResistanceWith, measure_resistance_voltage_fst,
          measure_resistance_voltage_snd, conv_samples_eq, adcConvert, palSetPad, palClearPad,
          palSetPadMode, bypass_line, h0, h1]
      · intro n hn
        interval_cases n <;>
        simp [measureResistance, measureResistanceWith, measure_resistance_voltage_fst,
          measure_resistance_voltage_snd, conv_samples_eq, adcConvert, palSetPad, palClearPad,
          palSetPadMode, bypass_line, h0, h1]
  · have hk : stop_stage w = 0 := by simp [stop_stage, h0]
    rw [hk]
    rw [e0] at h0 ⊢
    refine ⟨?_, ?_, ?_, ?_, ?_⟩
    · simp [measureResistance, measureResistanceWith, measure_resistance_voltage_fst,
        measure_resistance_voltage_snd, conv_samples_eq, adcConvert, palSetPad, palClearPad,
        palSetPadMode, stage_ref, h0]
    · simp [measureResistance, measureResistanceWith, measure_resistance_voltage_fst,
        measure_resistance_voltage_snd, conv_samples_eq, adcConvert, palSetPad, palClearPad,
        palSetPadMode, ranging_events, h0]
    · simp [measureResistance, measureResistanceWith, measure_resistance_voltage_fst,
        measure_resistance_voltage_snd, conv_samples_eq, adcConvert, palSetPad, palClearPad,
        palSetPadMode, World.advance, h0]
    · intro n hn
      interval_cases n <;>
      simp [measureResistance, measureResistanceWith, measure_resistance_voltage_fst,
        measure_resistance_voltage_snd, conv_samples_eq, adcConvert, palSetPad, palClearPad,
        palSetPadMode, bypass_line, h0]
    · intro n hn
      interval_cases n <;>
      simp [measureResistance, measureResistanceWith, measure_resistance_voltage_fst,
        measure_resistance_voltage_snd, conv_samples_eq, adcConvert, palSetPad, palClearPad,
        palSetPadMode, bypass_line, h0]

/-! ### Facts shared by the later theorems -/

theorem stop_stage_eq (w : World) (i : Nat) (hi : i ≤ 3)
    (hprev : ∀ j, j < i → FVal.lt (stage_voltage w j) SWITCH_TRESHOLD = true)
    (hstop : FVal.lt (stage_voltage w i) SWITCH_TRESHOLD = false ∨ i = 3) :
    stop_stage w = i := by
  interval_cases i
  · rcases hstop with h | h
    · simp [stop_stage, h]
    · omega
  · have p0 := hprev 0 (by norm_num)
    rcases hstop with h | h
    · simp [stop_stage, p0, h]
    · omega
  · have p0 := hprev 0 (by norm_num)
    have p1 := hprev 1 (by norm_num)
    rcases hstop with h | h
    · simp [stop_stage, p0, p1, h]
    · omega
  · have p0 := hprev 0 (by norm_num)
    have p1 := hprev 1 (by norm_num)
    have p2 := hprev 2 (by norm_num)
    simp [stop_stage, p0, p1, p2]

theorem stop_stage_le (w : World) : stop_stage w ≤ 3 := by
  unfold stop_stage
  split_ifs <;> norm_num

theorem stage_ref_pos (i : Nat) : ∃ r : ℚ, 0 < r ∧ stage_ref i = fin r := by
  rcases i with _ | _ | _ | i
  · exact ⟨12322300, by norm_num, rfl⟩
  · exact ⟨1232230, by norm_num, rfl⟩
  · exact ⟨106230, by norm_num, rfl⟩
  · exact ⟨6830, by norm_num, rfl⟩

theorem conv_count_ranging_events (k : Nat) (hk : k ≤ 3) :
    conv_count (ranging_events k) = k + 1 := by
  interval_cases k <;> simp [conv_count, ranging_events]

theorem conv_count_append (l1 l2 : List Event) :
    conv_count (l1 ++ l2) = conv_count l1 + conv_count l2 := by
  simp [conv_count, List.countP_append]

/-! ### A reading at the supply voltage -/

/-- C11: when the meter reaches a stage whose averaged raw sample is 4096, the
measured voltage equals the supply reference 3.3 V, the denominator
`(3.3/V - 1)` is zero, and the function performs the division all the same:
it stops at that stage (3.3 V is not below the threshold) and returns the
result of `R_ref * (1/0)`, which is `+inf`; nothing rejects, clamps or
reports the input. -/
theorem measureResistance_at_supply_voltage (w : World) (i : Nat) (hi : i ≤ 3)
    (hprev : ∀ j, j < i → FVal.lt (stage_voltage w j) SWITCH_TRESHOLD = true)
    (havg : sum8 (fun n => w.adc_in i n % 65536) / 8 = 4096) :
    stage_voltage w i = REFERENCE_VOLTAGE
    ∧ (fin 3.3 / stage_voltage w i) - fin 1 = fin 0
    ∧ fin 1 / ((fin 3.3 / stage_voltage w i) - fin 1) = pinf
    ∧ (measureResistance w).1 = stage_ref i * (fin 1 / fin 0)
    ∧ (measureResistance w).1 = pinf
    ∧ conv_count (measureResistance w).2.trace = conv_count w.trace + (i + 1) := by
  have hv : stage_voltage w i = fin 3.3 := by
    rw [stage_voltage_eq, havg, get_voltage_eq]
    norm_num
  have hden : (fin 3.3 / stage_voltage w i) - fin 1 = fin 0 := by
    rw [hv, fin_div_fin _ _ (by norm_num), fin_sub_fin]
    norm_num
  have hinv : fin 1 / fin 0 = pinf := by
    show FVal.div (fin 1) (fin 0) = pinf
    simp [FVal.div, FVal.signedInf]
  have hnl : FVal.lt (stage_voltage w i) SWITCH_TRESHOLD = false := by
    rw [hv, SWITCH_TRESHOLD, lt_fin_fin]
    simp
    norm_num
  have hk := stop_stage_eq w i hi hprev (Or.inl hnl)
  obtain ⟨hval, htr, -⟩ := measureResistance_stop w
  rw [hk] at hval htr
  have hmul : stage_ref i * pinf = pinf := by
    obtain ⟨r, hr, hre⟩ := stage_ref_pos i
    rw [hre]
    show FVal.mul (fin r) pinf = pinf
    have hr0 : r ≠ 0 := ne_of_gt hr
    simp [FVal.mul, FVal.signedInf, hr0, hr]
  refine ⟨hv, hden, ?_, ?_, ?_, ?_⟩
  · rw [hden, hinv]
  · rw [hval, divider_resistance, hden]
  · rw [hval, divider_resistance, hden, hinv, hmul]
  · rw [htr, conv_count_append, conv_count_ranging_events i hi]

/-- C11 (witness): the full stage reads 1000 and the 1M stage reads 4096. -/
theorem measureResistance_at_supply_voltage_witness :
    stage_voltage (boot_world (adc_steps [1000, 4096])) 1 = REFERENCE_VOLTAGE
    ∧ (fin 3.3 / stage_voltage (boot_world (adc_steps [1000, 4096])) 1) - fin 1 = fin 0
    ∧ fin 1 / ((fin 3.3 / stage_voltage (boot_world (adc_steps [1000, 4096])) 1) - fin 1) = pinf
    ∧ (measureResistance (boot_world (adc_steps [1000, 4096]))).1 = stage_ref 1 * (fin 1 / fin 0)
    ∧ (measureResistance (boot_world (adc_steps [1000, 4096]))).1 = pinf
    ∧ conv_count (measureResistance (boot_world (adc_steps [1000, 4096]))).2.trace
        = conv_count (boot_world (adc_steps [1000, 4096])).trace + (1 + 1) :=
  measureResistance_at_supply_voltage (boot_world (adc_steps [1000, 4096])) 1 (by norm_num)
    (by
      intro j hj
      have hj0 : j = 0 := by omega
      subst hj0
      rw [stage_voltage_eq, get_voltage_eq, SWITCH_TRESHOLD, lt_fin_fin]
      simp [boot_world, adc_steps, sum8, range8]
      norm_num)
    (by simp [boot_world, adc_steps, sum8, range8])

/-! ### The initial snapshot -/

/-- C12: the five statics start at zero; `init_analog` leaves the five fields
of any state unchanged; so `get_analog_sensor_values`, called in the initial
state or after `init_analog` and before any `measure_sensors` cycle, returns
`(0, 0, 0, 0, 0)`. -/
theorem snapshot_initially_zero (adc : Nat → Nat → Nat) :
    (boot_world adc).snapshot = (fin 0, fin 0, fin 0, fin 0, fin 0)
    ∧ (∀ w : World, (init_analog w).snapshot = w.snapshot)
    ∧ (get_analog_sensor_values (boot_world adc)).1 = (fin 0, fin 0, fin 0, fin 0, fin 0)
    ∧ (get_analog_sensor_values (init_analog (boot_world adc))).1
        = (fin 0, fin 0, fin 0, fin 0, fin 0)
    ∧ (∀ w : World, w.snapshot = (fin 0, fin 0, fin 0, fin 0, fin 0) →
        (get_analog_sensor_values (init_analog w)).1 = (fin 0, fin 0, fin 0, fin 0, fin 0)) := by
  refine ⟨rfl, fun _ => rfl, rfl, rfl, ?_⟩
  intro w h
  exact h

/-! ### The bypass lines -/

/-- C13: every `measureResistance` call takes its first conversion in a state
where the three bypass lines 1M, 100K, 6K8 are inputs and low, whatever they
were before, and no conversion precedes that reset; when the call returns,
at the stage `k` it stopped at, exactly the first `k` of the lines 1M, 100K,
6K8 are push-pull outputs driven high, the others are inputs and low, and
exactly `k + 1` conversions were performed. -/
theorem measureResistance_bypass_lines (w : World) :
    (∀ n, n < 3 →
        (stage_entry measure_resistance_voltage w 0).mode (bypass_line n) = PadMode.PAL_MODE_INPUT
        ∧ (stage_entry measure_resistance_voltage w 0).odr (bypass_line n) = false)
    ∧ conv_count (stage_entry measure_resistance_voltage w 0).trace = conv_count w.trace
    ∧ (∃ rest, (measureResistance w).2.trace
        = (stage_entry measure_resistance_voltage w 0).trace
          ++ Event.adcConvert .adcResOnly 8 :: rest)
    ∧ (∃ k, k ≤ 3
        ∧ (measureResistance w).1 = divider_resistance (stage_ref k) (stage_voltage w k)
        ∧ (measureResistance w).2.trace = w.trace ++ ranging_events k
        ∧ (∀ n, n < 3 → (measureResistance w).2.mode (bypass_line n)
            = if n < k then PadMode.PAL_MODE_OUTPUT_PUSHPULL else PadMode.PAL_MODE_INPUT)
        ∧ (∀ n, n < 3 → (measureResistance w).2.odr (bypass_line n) = decide (n < k))
        ∧ conv_count (measureResistance w).2.trace = conv_count w.trace + (k + 1)) := by
  obtain ⟨hval, htr, -, hmode, hodr⟩ := measureResistance_stop w
  have hk := stop_stage_le w
  refine ⟨?_, ?_, ?_, ?_⟩
  · intro n hn
    interval_cases n <;>
    simp [stage_entry, bypass_line, palSetPadMode, palClearPad]
  · simp [stage_entry, palSetPadMode, palClearPad, conv_count]
  · refine ⟨(ranging_events (stop_stage w)).drop 7, ?_⟩
    rw [htr]
    simp [stage_entry, palSetPadMode, palClearPad, ranging_events]
  · refine ⟨stop_stage w, hk, hval, htr, hmode, hodr, ?_⟩
    rw [htr, conv_count_append, conv_count_ranging_events _ hk]

/-! ### The lock -/

theorem run_points_head (fs : List (World → World)) (w : World) :
    (run_points fs w).head? = some w := by
  cases fs <;> rfl

theorem run_points_chain (R : World → World → Prop) (I : World → Prop)
    (fs : List (World → World)) (g : World → World)
    (hpres : ∀ f, f ∈ fs → ∀ v, I v → I (f v) ∧ R v (f v))
    (hlast : ∀ v, I v → R v (g v)) (w : World) (hw : I w) :
    List.Chain' R (run_points (fs ++ [g]) w) := by
  induction fs generalizing w with
  | nil =>
    show List.Chain' R [w, g w]
    exact List.chain'_pair.mpr (hlast w hw)
  | cons f fs ih =>
    rw [List.cons_append, run_points_cons]
    have hf := hpres f (List.mem_cons_self _ _) w hw
    apply List.Chain'.cons'
    · exact ih (fun f' hf' => hpres f' (List.mem_cons_of_mem _ hf')) (f w) hf.1
    · intro y hy
      rw [run_points_head] at hy
      cases hy
      exact hf.2

theorem ranging_events_no_lock (k : Nat) : (ranging_events k).filter is_lock_op = [] := by
  simp only [ranging_events]
  split_ifs <;> simp [is_lock_op]

/-! ### The resistance formula on in-range samples -/

theorem get_voltage_lt_threshold (s : Nat) :
    FVal.lt (get_voltage s) SWITCH_TRESHOLD = true ↔ s ≤ 2482 := by
  rw [get_voltage_eq, SWITCH_TRESHOLD, lt_fin_fin, decide_eq_true_eq]
  constructor
  · intro h
    by_contra hc
    have h2 : (2483 : ℚ) ≤ (s : ℚ) := by exact_mod_cast (by omega : 2483 ≤ s)
    norm_num at h
    linarith
  · intro h
    have h2 : (s : ℚ) ≤ 2482 := by exact_mod_cast h
    norm_num
    linarith

theorem divider_resistance_sample (r : ℚ) (s : Nat) (h0 : 0 < s) (h1 : s < 4096) :
    divider_resistance (fin r) (get_voltage s) = fin (r * (s : ℚ) / (4096 - (s : ℚ))) := by
  have hs0 : (0 : ℚ) < (s : ℚ) := by exact_mod_cast h0
  have hs1 : (s : ℚ) < 4096 := by exact_mod_cast h1
  have hv0 : (3.3 : ℚ) / 4096 * (s : ℚ) ≠ 0 := by
    have : (0 : ℚ) < 3.3 / 4096 * (s : ℚ) := by positivity
    exact ne_of_gt this
  have hv1 : (3.3 : ℚ) / 4096 * (s : ℚ) ≠ 3.3 := by
    intro h
    have : (s : ℚ) = 4096 := by
      have h3 : (3.3 : ℚ) / 4096 * (s : ℚ) = 3.3 / 4096 * 4096 := by rw [h]; norm_num
      have h4 : (3.3 : ℚ) / 4096 ≠ 0 := by norm_num
      exact mul_left_cancel₀ h4 h3
    linarith
  rw [get_voltage_eq, divider_resistance_fin _ _ hv0 hv1]
  congr 1
  have hd : (4096 : ℚ) - (s : ℚ) ≠ 0 := by linarith
  have hs : (s : ℚ) ≠ 0 := ne_of_gt hs0
  have e : (3.3 : ℚ) / (3.3 / 4096 * (s : ℚ)) - 1 = (4096 - (s : ℚ)) / (s : ℚ) := by
    field_simp
    ring
  rw [e]
  field_simp

theorem avg_in_range (s : Nat → Nat) (lo hi : Nat)
    (hlo : ∀ n, n < 8 → lo ≤ s n) (hhi : ∀ n, n < 8 → s n ≤ hi) :
    lo ≤ sum8 s / 8 ∧ sum8 s / 8 ≤ hi := by
  have a0 := hlo 0 (by norm_num)
  have a1 := hlo 1 (by norm_num)
  have a2 := hlo 2 (by norm_num)
  have a3 := hlo 3 (by norm_num)
  have a4 := hlo 4 (by norm_num)
  have a5 := hlo 5 (by norm_num)
  have a6 := hlo 6 (by norm_num)
  have a7 := hlo 7 (by norm_num)
  have b0 := hhi 0 (by norm_num)
  have b1 := hhi 1 (by norm_num)
  have b2 := hhi 2 (by norm_num)
  have b3 := hhi 3 (by norm_num)
  have b4 := hhi 4 (by norm_num)
  have b5 := hhi 5 (by norm_num)
  have b6 := hhi 6 (by norm_num)
  have b7 := hhi 7 (by norm_num)
  simp only [sum8, range8, List.map, List.sum_cons, List.sum_nil]
  omega

/-- C15: over exact arithmetic, for the reference of every stage and every
averaged raw sample `s` with `0 < s < 4096`: the voltage `V = (3.3/4096)*s` is
positive and below 3.3, neither denominator of `R_ref * (1/((3.3/V) - 1))` is
zero, and the stage resistance is the positive finite number
`R_ref * s / (4096 - s)`.  Hence a `measureResistance` call all of whose raw
samples lie in `[1, 4095]` returns a positive finite value: no division by
zero occurs. -/
theorem stage_resistance_well_defined (i s : Nat) (h0 : 0 < s) (h1 : s < 4096) :
    (∃ r v : ℚ, stage_ref i = fin r ∧ get_voltage s = fin v
      ∧ v = 3.3 / 4096 * (s : ℚ) ∧ 0 < v ∧ v < 3.3 ∧ 3.3 / v - 1 ≠ 0
      ∧ divider_resistance (stage_ref i) (get_voltage s) = fin (r * (1 / (3.3 / v - 1)))
      ∧ r * (1 / (3.3 / v - 1)) = r * (s : ℚ) / (4096 - (s : ℚ))
      ∧ 0 < r * (s : ℚ) / (4096 - (s : ℚ)))
    ∧ (∀ w : World, (∀ k n, 0 < w.adc_in k n ∧ w.adc_in k n < 4096) →
        ∃ q : ℚ, 0 < q ∧ (measureResistance w).1 = fin q) := by
  have hs0 : (0 : ℚ) < (s : ℚ) := by exact_mod_cast h0
  have hs1 : (s : ℚ) < 4096 := by exact_mod_cast h1
  constructor
  · obtain ⟨r, hr, hre⟩ := stage_ref_pos i
    have hv0 : (0 : ℚ) < 3.3 / 4096 * (s : ℚ) := by positivity
    have hv1 : (3.3 : ℚ) / 4096 * (s : ℚ) < 3.3 := by
      have : (3.3 : ℚ) / 4096 * (s : ℚ) < 3.3 / 4096 * 4096 :=
        mul_lt_mul_of_pos_left hs1 (by norm_num)
      calc (3.3 : ℚ) / 4096 * (s : ℚ) < 3.3 / 4096 * 4096 := this
        _ = 3.3 := by norm_num
    have hden : (3.3 : ℚ) / (3.3 / 4096 * (s : ℚ)) - 1 ≠ 0 := by
      have : (1 : ℚ) < 3.3 / (3.3 / 4096 * (s : ℚ)) := by
        rw [lt_div_iff₀ hv0]
        linarith
      intro h
      linarith
    have hpos : 0 < r * (s : ℚ) / (4096 - (s : ℚ)) := by
      apply div_pos
      · positivity
      · linarith
    have hform := divider_resistance_sample r s h0 h1
    have hfin := divider_resistance_fin r (3.3 / 4096 * (s : ℚ)) (ne_of_gt hv0) (ne_of_lt hv1)
    have heq : r * (1 / (3.3 / (3.3 / 4096 * (s : ℚ)) - 1)) = r * (s : ℚ) / (4096 - (s : ℚ)) := by
      have h2 := hform
      rw [get_voltage_eq, hfin] at h2
      injection h2
    refine ⟨r, 3.3 / 4096 * (s : ℚ), hre, get_voltage_eq s, rfl, hv0, hv1, hden, ?_, heq, hpos⟩
    rw [hre, get_voltage_eq, hfin]
  · intro w hw
    obtain ⟨hval, -⟩ := measureResistance_stop w
    obtain ⟨r, hr, hre⟩ := stage_ref_pos (stop_stage w)
    have hrange := avg_in_range (fun n => w.adc_in (stop_stage w) n % 65536) 1 4095
      (fun n _ => by
        have := hw (stop_stage w) n
        show 1 ≤ w.adc_in (stop_stage w) n % 65536
        omega)
      (fun n _ => by
        have := hw (stop_stage w) n
        show w.adc_in (stop_stage w) n % 65536 ≤ 4095
        omega)
    have ha0 : 0 < sum8 (fun n => w.adc_in (stop_stage w) n % 65536) / 8 := by omega
    have ha1 : sum8 (fun n => w.adc_in (stop_stage w) n % 65536) / 8 < 4096 := by omega
    rw [stage_voltage_eq, hre, divider_resistance_sample _ _ ha0 ha1] at hval
    refine ⟨_, ?_, hval⟩
    have c0 : (0 : ℚ) < ((sum8 (fun n => w.adc_in (stop_stage w) n % 65536) / 8 : ℕ) : ℚ) := by
      exact_mod_cast ha0
    have c1 : ((sum8 (fun n => w.adc_in (stop_stage w) n % 65536) / 8 : ℕ) : ℚ) < 4096 := by
      exact_mod_cast ha1
    apply div_pos
    · positivity
    · linarith

/-- C15 (witness): the 100k stage and the averaged sample 2048. -/
theorem stage_resistance_well_defined_witness :
    (∃ r v : ℚ, stage_ref 2 = fin r ∧ get_voltage 2048 = fin v
      ∧ v = 3.3 / 4096 * ((2048 : ℕ) : ℚ) ∧ 0 < v ∧ v < 3.3 ∧ 3.3 / v - 1 ≠ 0
      ∧ divider_resistance (stage_ref 2) (get_voltage 2048) = fin (r * (1 / (3.3 / v - 1)))
      ∧ r * (1 / (3.3 / v - 1)) = r * ((2048 : ℕ) : ℚ) / (4096 - ((2048 : ℕ) : ℚ))
      ∧ 0 < r * ((2048 : ℕ) : ℚ) / (4096 - ((2048 : ℕ) : ℚ)))
    ∧ (∀ w : World, (∀ k n, 0 < w.adc_in k n ∧ w.adc_in k n < 4096) →
        ∃ q : ℚ, 0 < q ∧ (measureResistance w).1 = fin q) :=
  stage_resistance_well_defined 2 2048 (by norm_num) (by norm_num)

/-! ### The accumulator of `measure_resistance_voltage` -/

theorem conv_samples_lt (w : World) (i : Nat) : conv_samples w i < 65536 := by
  show w.adc_in 0 i % 65536 < 65536
  omega

theorem foldl_min_le (l : List Nat) (a : Nat) :
    l.foldl min a ≤ a ∧ ∀ x, x ∈ l → l.foldl min a ≤ x := by
  induction l generalizing a with
  | nil => simp
  | cons y ys ih =>
    obtain ⟨h1, h2⟩ := ih (min a y)
    refine ⟨le_trans h1 (Nat.min_le_left a y), ?_⟩
    intro x hx
    rw [List.mem_cons] at hx
    rcases hx with hx | hx
    · rw [hx]
      exact le_trans h1 (Nat.min_le_right a y)
    · exact h2 x hx

theorem le_foldl_max (l : List Nat) (a : Nat) :
    a ≤ l.foldl max a ∧ ∀ x, x ∈ l → x ≤ l.foldl max a := by
  induction l generalizing a with
  | nil => simp
  | cons y ys ih =>
    obtain ⟨h1, h2⟩ := ih (max a y)
    refine ⟨le_trans (Nat.le_max_left a y) h1, ?_⟩
    intro x hx
    rw [List.mem_cons] at hx
    rcases hx with hx | hx
    · rw [hx]
      exact le_trans (Nat.le_max_right a y) h1
    · exact h2 x hx

theorem foldl_min_mem (l : List Nat) (a : Nat) : l.foldl min a = a ∨ l.foldl min a ∈ l := by
  induction l generalizing a with
  | nil => left; rfl
  | cons y ys ih =>
    rcases ih (min a y) with h | h
    · rcases Nat.le_total a y with hay | hay
      · left
        show ys.foldl min (min a y) = a
        rw [h]; exact Nat.min_eq_left hay
      · right
        show ys.foldl min (min a y) ∈ y :: ys
        rw [h, Nat.min_eq_right hay]
        exact List.mem_cons_self _ _
    · right
      exact List.mem_cons_of_mem _ h

theorem foldl_max_mem (l : List Nat) (a : Nat) : l.foldl max a = a ∨ l.foldl max a ∈ l := by
  induction l generalizing a with
  | nil => left; rfl
  | cons y ys ih =>
    rcases ih (max a y) with h | h
    · rcases Nat.le_total a y with hay | hay
      · right
        show ys.foldl max (max a y) ∈ y :: ys
        rw [h, Nat.max_eq_right hay]
        exact List.mem_cons_self _ _
      · left
        show ys.foldl max (max a y) = a
        rw [h]; exact Nat.max_eq_left hay
    · right
      exact List.mem_cons_of_mem _ h

theorem min8_attained (s : Nat → Nat) : ∃ i, i < 8 ∧ min8 s = s i := by
  rcases foldl_min_mem ((List.range 8).map s) (s 0) with h | h
  · exact ⟨0, by norm_num, h⟩
  · obtain ⟨i, hi, he⟩ := List.mem_map.mp h
    exact ⟨i, List.mem_range.mp hi, he.symm⟩

theorem max8_attained (s : Nat → Nat) : ∃ i, i < 8 ∧ max8 s = s i := by
  rcases foldl_max_mem ((List.range 8).map s) (s 0) with h | h
  · exact ⟨0, by norm_num, h⟩
  · obtain ⟨i, hi, he⟩ := List.mem_map.mp h
    exact ⟨i, List.mem_range.mp hi, he.symm⟩

theorem min8_le (s : Nat → Nat) (n : Nat) (hn : n < 8) : min8 s ≤ s n :=
  (foldl_min_le _ _).2 _ (List.mem_map.mpr ⟨n, List.mem_range.mpr hn, rfl⟩)

theorem le_max8 (s : Nat → Nat) (n : Nat) (hn : n < 8) : s n ≤ max8 s :=
  (le_foldl_max _ _).2 _ (List.mem_map.mpr ⟨n, List.mem_range.mpr hn, rfl⟩)

/-- C17: for every buffer of eight 16-bit samples delivered to
`measure_resistance_voltage`: after each of the eight additions the 32-bit
accumulator holds the plain sum of the samples added so far, which is below
`2^32` (no wrap-around occurs); the truncated average `floor(sum/8)` is at
least the smallest and at most the largest of the eight samples, so it
fits the 16-bit sample type and the cast back loses nothing; if all samples
are below 4096 so is the average; the function returns the voltage of that
average. -/
theorem accumulator_and_average_bounds (w : World) :
    (∀ n, n ≤ 8 →
        (List.range n).foldl
            (fun acc i =>
              (acc + (adcConvert .adcResOnly ADC_GRP1_BUF_DEPTH w).samples1 i) % 2 ^ 32) 0
          = ((List.range n).map (conv_samples w)).sum
        ∧ ((List.range n).map (conv_samples w)).sum < 2 ^ 32)
    ∧ sum8 (conv_samples w) ≤ 8 * 65535
    ∧ min8 (conv_samples w) ≤ sum8 (conv_samples w) / 8
    ∧ sum8 (conv_samples w) / 8 ≤ max8 (conv_samples w)
    ∧ (∀ n, n < 8 → min8 (conv_samples w) ≤ conv_samples w n
        ∧ conv_samples w n ≤ max8 (conv_samples w))
    ∧ (∃ i, i < 8 ∧ min8 (conv_samples w) = conv_samples w i)
    ∧ (∃ j, j < 8 ∧ max8 (conv_samples w) = conv_samples w j)
    ∧ sum8 (conv_samples w) / 8 < 65536
    ∧ (sum8 (conv_samples w) / 8) % 65536 = sum8 (conv_samples w) / 8
    ∧ ((∀ n, n < 8 → conv_samples w n < 4096) → sum8 (conv_samples w) / 8 < 4096)
    ∧ (measure_resistance_voltage w).1 = get_voltage (sum8 (conv_samples w) / 8) := by
  have b0 := conv_samples_lt w 0
  have b1 := conv_samples_lt w 1
  have b2 := conv_samples_lt w 2
  have b3 := conv_samples_lt w 3
  have b4 := conv_samples_lt w 4
  have b5 := conv_samples_lt w 5
  have b6 := conv_samples_lt w 6
  have b7 := conv_samples_lt w 7
  refine ⟨?_, ?_, ?_, ?_, ?_, min8_attained _, max8_attained _, ?_, ?_, ?_,
    measure_resistance_voltage_fst w⟩
  · intro n hn
    have hs : ∀ i, i < 8 →
        (adcConvert .adcResOnly ADC_GRP1_BUF_DEPTH w).samples1 i = conv_samples w i := by
      intro i hi
      simp [adcConvert, ADC_GRP1_BUF_DEPTH, ConvGroup.num_channels, conv_samples_eq, hi]
    have s0 := hs 0 (by norm_num)
    have s1 := hs 1 (by norm_num)
    have s2 := hs 2 (by norm_num)
    have s3 := hs 3 (by norm_num)
    have s4 := hs 4 (by norm_num)
    have s5 := hs 5 (by norm_num)
    have s6 := hs 6 (by norm_num)
    have s7 := hs 7 (by norm_num)
    interval_cases n <;>
    simp only [List.range, List.range.loop, List.foldl, List.map, List.sum_cons, List.sum_nil,
      s0, s1, s2, s3, s4, s5, s6, s7, true_and] <;>
    omega
  · simp only [sum8, range8, List.map, List.sum_cons, List.sum_nil]
    omega
  · exact (avg_in_range _ _ _ (min8_le _) (le_max8 _)).1
  · exact (avg_in_range _ _ _ (min8_le _) (le_max8 _)).2
  · intro n hn
    exact ⟨min8_le _ n hn, le_max8 _ n hn⟩
  · simp only [sum8, range8, List.map, List.sum_cons, List.sum_nil]
    omega
  · simp only [sum8, range8, List.map, List.sum_cons, List.sum_nil]
    omega
  · intro h
    exact Nat.lt_of_le_of_lt (avg_in_range _ 0 4095 (fun _ _ => Nat.zero_le _)
      (fun n hn => Nat.lt_succ_iff.mp (h n hn))).2 (by norm_num)

/-! ### Monotonicity of the resistance formula -/

theorem sample_ratio_lt (r : ℚ) (hr : 0 < r) (a b : ℚ) (hab : a < b) (hb : b < 4096) :
    r * a / (4096 - a) < r * b / (4096 - b) := by
  have hda : 0 < 4096 - a := by linarith
  have hdb : 0 < 4096 - b := by linarith
  rw [div_lt_div_iff₀ hda hdb]
  have : r * a * (4096 - b) - r * b * (4096 - a) = r * 4096 * (a - b) := by ring
  have h2 : r * 4096 * (a - b) < 0 := by
    apply mul_neg_of_pos_of_neg
    · positivity
    · linarith
  linarith

/-- C18: at a fixed stage the computed resistance is strictly increasing in
the averaged sample: for the reference of every stage `i` and samples
`0 < s1 < s2 < 4096`, `resistance(R_ref, s1) < resistance(R_ref, s2)`.
Consequently a result returned from a non-terminal stage `k` (earlier stages
below the threshold, stage `k` at 2.0 V or more) whose averaged sample is
below 4096 is a finite value of at least `R_ref * 2.0/(3.3 - 2.0)`, which is
`(20/13) * R_ref`. -/
theorem resistance_increasing (i s1 s2 : Nat) (h0 : 0 < s1) (h12 : s1 < s2) (h2 : s2 < 4096)
    (w : World) (k : Nat) (hk : k ≤ 2)
    (hprev : ∀ j, j < k → FVal.lt (stage_voltage w j) SWITCH_TRESHOLD = true)
    (hthr : FVal.le SWITCH_TRESHOLD (stage_voltage w k) = true)
    (hs : sum8 (fun n => w.adc_in k n % 65536) / 8 < 4096) :
    FVal.lt (divider_resistance (stage_ref i) (get_voltage s1))
        (divider_resistance (stage_ref i) (get_voltage s2)) = true
    ∧ (∃ r q : ℚ, stage_ref k = fin r ∧ (measureResistance w).1 = fin q
        ∧ r * (2.0 / (3.3 - 2.0)) ≤ q)
    ∧ FVal.le (stage_ref k * fin (2.0 / (3.3 - 2.0))) (measureResistance w).1 = true
    ∧ ((2.0 : ℚ) / (3.3 - 2.0) = 20 / 13) := by
  have hconst : (2.0 : ℚ) / (3.3 - 2.0) = 20 / 13 := by norm_num
  have hpart2 : ∃ r q : ℚ, stage_ref k = fin r ∧ (measureResistance w).1 = fin q
      ∧ r * (2.0 / (3.3 - 2.0)) ≤ q := by
    obtain ⟨r, hr, hre⟩ := stage_ref_pos k
    have hnl : FVal.lt (stage_voltage w k) SWITCH_TRESHOLD = false := by
      have := (not_le_iff_lt w k).not
      rw [Bool.not_eq_false, Bool.not_eq_true] at this
      exact this.mp hthr
    have hstage := stop_stage_eq w k (by omega) hprev (Or.inl hnl)
    obtain ⟨hval, -⟩ := measureResistance_stop w
    rw [hstage, stage_voltage_eq] at hval
    rw [stage_voltage_eq] at hnl
    have hge : 2483 ≤ sum8 (fun n => w.adc_in k n % 65536) / 8 := by
      by_contra hc
      have hle : sum8 (fun n => w.adc_in k n % 65536) / 8 ≤ 2482 := by omega
      rw [(get_voltage_lt_threshold _).mpr hle] at hnl
      exact Bool.noConfusion hnl
    generalize sum8 (fun n => w.adc_in k n % 65536) / 8 = s at hval hge hs
    rw [hre, divider_resistance_sample r s (by omega) hs] at hval
    refine ⟨r, _, hre, hval, ?_⟩
    have c0 : (2483 : ℚ) ≤ (s : ℚ) := by exact_mod_cast hge
    have c1 : (s : ℚ) < 4096 := by exact_mod_cast hs
    have hd : (0 : ℚ) < 4096 - (s : ℚ) := by linarith
    rw [hconst, le_div_iff₀ hd]
    nlinarith
  refine ⟨?_, hpart2, ?_, hconst⟩
  · obtain ⟨r, hr, hre⟩ := stage_ref_pos i
    rw [hre, divider_resistance_sample r s1 h0 (by omega),
      divider_resistance_sample r s2 (by omega) h2, lt_fin_fin, decide_eq_true_eq]
    apply sample_ratio_lt r hr
    · exact_mod_cast h12
    · exact_mod_cast h2
  · obtain ⟨r, q, hre, hq, hle⟩ := hpart2
    rw [hre, hq, fin_mul_fin, le_fin_fin, decide_eq_true_eq]
    exact hle

/-- C18 (witness): the 1M stage with samples 1000 and 3000; a run whose full
stage reads 1000 and whose 1M stage reads 3000. -/
theorem resistance_increasing_witness :
    FVal.lt (divider_resistance (stage_ref 1) (get_voltage 1000))
        (divider_resistance (stage_ref 1) (get_voltage 3000)) = true
    ∧ (∃ r q : ℚ, stage_ref 1 = fin r
        ∧ (measureResistance (boot_world (adc_steps [1000, 3000]))).1 = fin q
        ∧ r * (2.0 / (3.3 - 2.0)) ≤ q)
    ∧ FVal.le (stage_ref 1 * fin (2.0 / (3.3 - 2.0)))
        (measureResistance (boot_world (adc_steps [1000, 3000]))).1 = true
    ∧ ((2.0 : ℚ) / (3.3 - 2.0) = 20 / 13) :=
  resistance_increasing 1 1000 3000 (by norm_num) (by norm_num) (by norm_num)
    (boot_world (adc_steps [1000, 3000])) 1 (by norm_num)
    (by
      intro j hj
      have hj0 : j = 0 := by omega
      subst hj0
      rw [stage_voltage_eq, get_voltage_eq, SWITCH_TRESHOLD, lt_fin_fin]
      simp [boot_world, adc_steps, sum8, range8]
      norm_num)
    (by
      rw [stage_voltage_eq, get_voltage_eq, SWITCH_TRESHOLD, le_fin_fin]
      simp [boot_world, adc_steps, sum8, range8]
      norm_num)
    (by simp [boot_world, adc_steps, sum8, range8])

/-! ### Dependence on the delivered samples only -/

theorem stage_voltage_congr (w1 w2 : World) (h : w1.adc_in = w2.adc_in) (i : Nat) :
    stage_voltage w1 i = stage_voltage w2 i := by
  rw [stage_voltage_eq, stage_voltage_eq, h]

theorem stop_stage_congr (w1 w2 : World) (h : w1.adc_in = w2.adc_in) :
    stop_stage w1 = stop_stage w2 := by
  unfold stop_stage
  rw [stage_voltage_congr w1 w2 h 0, stage_voltage_congr w1 w2 h 1,
    stage_voltage_congr w1 w2 h 2]

theorem measureResistance_congr (w1 w2 : World) (h : w1.adc_in = w2.adc_in) :
    (measureResistance w1).1 = (measureResistance w2).1
    ∧ (measureResistance w1).2.adc_in = (measureResistance w2).2.adc_in := by
  obtain ⟨v1, -, a1, -⟩ := measureResistance_stop w1
  obtain ⟨v2, -, a2, -⟩ := measureResistance_stop w2
  rw [v1, v2, a1, a2, stop_stage_congr w1 w2 h, stage_voltage_congr w1 w2 h]
  refine ⟨rfl, ?_⟩
  simp only [World.advance, h]

theorem select_sensor_adc_in (s : sensor_types_t) (w : World) :
    (select_sensor s w).adc_in = w.adc_in := by
  cases s <;> rfl

theorem elchem_entry_congr (w1 w2 : World) (h : w1.adc_in = w2.adc_in) :
    (measureResistance (select_sensor .CO_SENSOR (chMtxLock w1))).1
        = (measureResistance (select_sensor .CO_SENSOR (chMtxLock w2))).1
    ∧ (measureResistance (select_sensor .NO2_SENSOR
          (assign_co_gas (select_sensor .CO_SENSOR (chMtxLock w1))))).1
        = (measureResistance (select_sensor .NO2_SENSOR
          (assign_co_gas (select_sensor .CO_SENSOR (chMtxLock w2))))).1
    ∧ (measureResistance (chThdSleepMilliseconds 5 (select_sensor .NH3_SENSOR
          (assign_no2_gas (select_sensor .NO2_SENSOR
            (assign_co_gas (select_sensor .CO_SENSOR (chMtxLock w1)))))))).1
        = (measureResistance (chThdSleepMilliseconds 5 (select_sensor .NH3_SENSOR
          (assign_no2_gas (select_sensor .NO2_SENSOR
            (assign_co_gas (select_sensor .CO_SENSOR (chMtxLock w2)))))))).1
    ∧ (elchem_entry w1).adc_in = (elchem_entry w2).adc_in := by
  have hA : (select_sensor .CO_SENSOR (chMtxLock w1)).adc_in
      = (select_sensor .CO_SENSOR (chMtxLock w2)).adc_in := by
    rw [select_sensor_adc_in, select_sensor_adc_in]
    exact h
  obtain ⟨vA, aA⟩ := measureResistance_congr _ _ hA
  have hB : (select_sensor .NO2_SENSOR
        (assign_co_gas (select_sensor .CO_SENSOR (chMtxLock w1)))).adc_in
      = (select_sensor .NO2_SENSOR
        (assign_co_gas (select_sensor .CO_SENSOR (chMtxLock w2)))).adc_in := by
    rw [select_sensor_adc_in, select_sensor_adc_in]
    exact aA
  obtain ⟨vB, aB⟩ := measureResistance_congr _ _ hB
  have hC : (chThdSleepMilliseconds 5 (select_sensor .NH3_SENSOR
        (assign_no2_gas (select_sensor .NO2_SENSOR
          (assign_co_gas (select_sensor .CO_SENSOR (chMtxLock w1))))))).adc_in
      = (chThdSleepMilliseconds 5 (select_sensor .NH3_SENSOR
        (assign_no2_gas (select_sensor .NO2_SENSOR
          (assign_co_gas (select_sensor .CO_SENSOR (chMtxLock w2))))))).adc_in := by
    show (select_sensor .NH3_SENSOR _).adc_in = (select_sensor .NH3_SENSOR _).adc_in
    rw [select_sensor_adc_in, select_sensor_adc_in]
    exact aB
  obtain ⟨vC, aC⟩ := measureResistance_congr _ _ hC
  refine ⟨vA, vB, vC, ?_⟩
  rw [elchem_entry_eq, elchem_entry_eq]
  exact aC

/-- C19: two `measure_sensors` cycles that are delivered the same sequence of
conversion results end with equal five-field snapshots, whatever the two prior
states (snapshot values, selection lines, bypass-line modes and levels, buffer
contents) were; the electrochemical part starts by setting both accumulators
to zero, so nothing of the previous NO and SO2 values carries over. -/
theorem snapshot_depends_on_samples_only (w1 w2 : World) (h : w1.adc_in = w2.adc_in) :
    (measure_sensors w1).snapshot = (measure_sensors w2).snapshot
    ∧ (∀ v : World, (run (measure_sensors_elchem.take 2) v).no_gas_avg = fin 0
        ∧ (run (measure_sensors_elchem.take 2) v).so2_gas_avg = fin 0) := by
  obtain ⟨vA, vB, vC, hE⟩ := elchem_entry_congr w1 w2 h
  have hcs : conv_samples (elchem_entry w1) = conv_samples (elchem_entry w2) := by
    rw [conv_samples_eq, conv_samples_eq, hE]
  refine ⟨?_, ?_⟩
  · rw [measure_sensors_snapshot, measure_sensors_snapshot, vA, vB, vC, hcs]
  · intro v
    simp [run, measure_sensors_elchem]

/-- C19 (witness): a cycle started after reset and a cycle started in a state
in use, both delivered samples of 3072 throughout. -/
theorem snapshot_depends_on_samples_only_witness :
    (measure_sensors (boot_world (fun _ _ => 3072))).snapshot
      = (measure_sensors (used_world (fun _ _ => 3072))).snapshot
    ∧ (∀ v : World, (run (measure_sensors_elchem.take 2) v).no_gas_avg = fin 0
        ∧ (run (measure_sensors_elchem.take 2) v).so2_gas_avg = fin 0) :=
  snapshot_depends_on_samples_only (boot_world (fun _ _ => 3072))
    (used_world (fun _ _ => 3072)) rfl

/-! ### Single precision in the electrochemical channels -/

theorem get_voltage_with_id (n : Nat) : get_voltage n = fin (get_voltage_with id n) := by
  rw [get_voltage_eq]
  simp [get_voltage_with, ADC_BITS]

theorem accessor_points_eq (a : AccessorState) :
    accessor_points a
      = [ a,
          { a with world := chMtxLock a.world },
          { a with world := chMtxLock a.world, co := a.world.co_gas },
          { a with world := chMtxLock a.world, co := a.world.co_gas, no2 := a.world.no2_gas },
          { a with world := chMtxLock a.world, co := a.world.co_gas, no2 := a.world.no2_gas,
                   nh3 := a.world.nh3_gas },
          { a with world := chMtxLock a.world, co := a.world.co_gas, no2 := a.world.no2_gas,
                   nh3 := a.world.nh3_gas, no := a.world.no_gas_avg },
          { world := chMtxLock a.world, co := a.world.co_gas, no2 := a.world.no2_gas,
            nh3 := a.world.nh3_gas, no := a.world.no_gas_avg, so2 := a.world.so2_gas_avg },
          { world := chMtxUnlock (chMtxLock a.world), co := a.world.co_gas,
            no2 := a.world.no2_gas, nh3 := a.world.nh3_gas, no := a.world.no_gas_avg,
            so2 := a.world.so2_gas_avg } ] := rfl

theorem accessor_run_eq (a : AccessorState) :
    accessor_run a
      = { world := chMtxUnlock (chMtxLock a.world), co := a.world.co_gas,
          no2 := a.world.no2_gas, nh3 := a.world.nh3_gas, no := a.world.no_gas_avg,
          so2 := a.world.so2_gas_avg } := rfl

theorem accessor_under_lock (a : AccessorState) :
    (accessor_run a).world = (get_analog_sensor_values a.world).2
    ∧ (accessor_run a).out = (get_analog_sensor_values a.world).1
    ∧ (∃ mid, accessor_points a = a :: (mid ++ [accessor_run a])
        ∧ mid.length = 6
        ∧ (∀ p, p ∈ mid → p.world.analog_data = true ∧ p.world.snapshot = a.world.snapshot)
        ∧ (∀ p, p ∈ mid.head? → p.out = a.out)
        ∧ (∀ p, p ∈ mid.getLast? → p.out = (accessor_run a).out))
    ∧ List.Chain'
        (fun p q => p.out ≠ q.out → p.world.analog_data = true ∧ q.world.analog_data = true)
        (accessor_points a) := by
  refine ⟨rfl, rfl, ?_, ?_⟩
  · refine ⟨((accessor_points a).tail).dropLast, ?_, ?_, ?_, ?_, ?_⟩
    · rw [accessor_points_eq, accessor_run_eq]
      rfl
    · rw [accessor_points_eq]
      rfl
    · intro p hp
      rw [accessor_points_eq] at hp
      simp only [List.tail, List.dropLast, List.mem_cons, List.mem_singleton, List.not_mem_nil,
        or_false] at hp
      rcases hp with h | h | h | h | h | h <;> subst h <;> exact ⟨rfl, rfl⟩
    · intro p hp
      rw [accessor_points_eq] at hp
      simp only [List.tail, List.dropLast, List.head?, Option.mem_def, Option.some.injEq] at hp
      subst hp
      rfl
    · intro p hp
      rw [accessor_points_eq] at hp
      simp only [List.tail, List.dropLast, List.getLast?, List.getLast, Option.mem_def,
        Option.some.injEq] at hp
      subst hp
      rfl
  · rw [accessor_points_eq]
    simp only [List.chain'_cons, List.chain'_singleton, and_true]
    refine ⟨?_, ?_, ?_, ?_, ?_, ?_, ?_⟩
    · intro h; exact absurd rfl h
    · intro _; exact ⟨rfl, rfl⟩
    · intro _; exact ⟨rfl, rfl⟩
    · intro _; exact ⟨rfl, rfl⟩
    · intro _; exact ⟨rfl, rfl⟩
    · intro _; exact ⟨rfl, rfl⟩
    · intro h; exact absurd rfl h

/-- C14: the calls of every `measure_sensors` cycle are the lock, then calls
none of which takes or releases the mutex (all sensor selections, conversions
and the delay), then the unlock, so the mutex is taken once, first, and
released once, last, whatever stages the measurements stop at; the lock is held in
every state of the cycle from after the first statement to before the last,
so every statement in between runs under it, and in particular every
statement that changes one of the five snapshot fields has the lock held
before and after it.  `get_analog_sensor_values` takes the mutex, returns
the five fields as they are while it is held, and releases it: its calls are
one lock followed by one unlock.  Statement by statement, from any state of
the caller's five objects: its first statement takes the mutex and its last
releases it, the six states in between all have the lock held and the
snapshot unchanged, no caller object is written before the lock is taken or
after it is released, every statement that changes a caller object has the
lock held before and after it, and the values left in the caller's objects
are the five fields. -/
theorem lock_spans_cycle_and_read (w : World) :
    (∃ k1 k2 k3, k1 ≤ 3 ∧ k2 ≤ 3 ∧ k3 ≤ 3
      ∧ (measure_sensors w).trace
        = w.trace ++ ([Event.chMtxLock] ++ cycle_inner k1 k2 k3 ++ [Event.chMtxUnlock])
      ∧ (cycle_inner k1 k2 k3).filter is_lock_op = []
      ∧ ([Event.chMtxLock] ++ cycle_inner k1 k2 k3 ++ [Event.chMtxUnlock]).filter is_lock_op
        = [Event.chMtxLock, Event.chMtxUnlock])
    ∧ (∃ mid, run_points measure_sensors_body w = w :: (mid ++ [measure_sensors w])
        ∧ ∀ p, p ∈ mid → p.analog_data = true)
    ∧ List.Chain'
        (fun p q => p.snapshot ≠ q.snapshot → p.analog_data = true ∧ q.analog_data = true)
        (run_points measure_sensors_body w)
    ∧ (measure_sensors w).analog_data = false
    ∧ (get_analog_sensor_values w).1 = (chMtxLock w).snapshot
    ∧ (chMtxLock w).analog_data = true
    ∧ (get_analog_sensor_values w).2 = chMtxUnlock (chMtxLock w)
    ∧ (get_analog_sensor_values w).2.trace = w.trace ++ [Event.chMtxLock, Event.chMtxUnlock]
    ∧ (get_analog_sensor_values w).2.analog_data = false
    ∧ (∀ a : AccessorState,
        (accessor_run a).world = (get_analog_sensor_values a.world).2
        ∧ (accessor_run a).out = (get_analog_sensor_values a.world).1
        ∧ (∃ mid, accessor_points a = a :: (mid ++ [accessor_run a])
            ∧ mid.length = 6
            ∧ (∀ p, p ∈ mid →
                p.world.analog_data = true ∧ p.world.snapshot = a.world.snapshot)
            ∧ (∀ p, p ∈ mid.head? → p.out = a.out)
            ∧ (∀ p, p ∈ mid.getLast? → p.out = (accessor_run a).out))
        ∧ List.Chain'
            (fun p q =>
              p.out ≠ q.out → p.world.analog_data = true ∧ q.world.analog_data = true)
            (accessor_points a)) := by
  have hfin : measure_sensors w
      = chMtxUnlock (run (measure_sensors_resistive.tail ++ measure_sensors_elchem.dropLast)
          (chMtxLock w)) := by
    rw [measure_sensors, measure_sensors_body_eq, run_cons, run_snoc]
  refine ⟨?_, ?_, ?_, ?_, rfl, rfl, rfl, ?_, rfl, fun a => accessor_under_lock a⟩
  · obtain ⟨k1, k2, k3, hk1, hk2, hk3, ht⟩ := elchem_entry_trace w
    have hin : (cycle_inner k1 k2 k3).filter is_lock_op = [] := by
      simp [cycle_inner, List.filter_append, ranging_events_no_lock, select_events, is_lock_op]
    refine ⟨k1, k2, k3, hk1, hk2, hk3, ?_, hin, ?_⟩
    · rw [measure_sensors_split, run_elchem_trace, ht]
      simp [cycle_inner, List.append_assoc]
    · rw [List.filter_append, List.filter_append, hin]
      simp [is_lock_op]
  · refine ⟨run_points (measure_sensors_resistive.tail ++ measure_sensors_elchem.dropLast)
      (chMtxLock w), ?_, ?_⟩
    · rw [measure_sensors_body_eq, run_points_cons, run_points_snoc, hfin]
    · exact run_points_invariant (fun v => v.analog_data = true) _
        (fun f hf v hv => by
          show (f v).analog_data = true
          rw [middle_keeps_lock f hf v]; exact hv)
        (chMtxLock w) rfl
  · rw [measure_sensors_body_eq, run_points_cons]
    apply List.Chain'.cons'
    · apply run_points_chain _ (fun v => v.analog_data = true)
      · intro f hf v hv
        have hkeep := middle_keeps_lock f hf v
        have hv2 : v.analog_data = true := hv
        have hfv : (f v).analog_data = true := by rw [hkeep]; exact hv2
        exact ⟨hfv, fun _ => ⟨hv2, hfv⟩⟩
      · intro v _ hne
        exact absurd rfl hne
      · rfl
    · intro y hy
      rw [run_points_head] at hy
      cases hy
      intro hne
      exact absurd rfl hne
  · rw [hfin]
    rfl
  · simp [get_analog_sensor_values, chMtxLock, chMtxUnlock]

/-! ### Escalation in raw counts -/

theorem stop_stage_gt_iff (w : World) (i : Nat) (hi : i ≤ 2)
    (hprev : ∀ j, j < i → FVal.lt (stage_voltage w j) SWITCH_TRESHOLD = true) :
    (i < stop_stage w ↔ FVal.lt (stage_voltage w i) SWITCH_TRESHOLD = true)
    ∧ (stop_stage w = i ↔ FVal.lt (stage_voltage w i) SWITCH_TRESHOLD = false) := by
  by_cases h : FVal.lt (stage_voltage w i) SWITCH_TRESHOLD = true
  · have hgt : i < stop_stage w := by
      interval_cases i
      · simp [stop_stage, h]
        split_ifs <;> norm_num
      · have p0 := hprev 0 (by norm_num)
        simp [stop_stage, h, p0]
        split_ifs <;> norm_num
      · have p0 := hprev 0 (by norm_num)
        have p1 := hprev 1 (by norm_num)
        simp [stop_stage, h, p0, p1]
    refine ⟨⟨fun _ => h, fun _ => hgt⟩, ⟨fun he => ?_, fun hf => ?_⟩⟩
    · omega
    · rw [h] at hf
      exact Bool.noConfusion hf
  · have hf : FVal.lt (stage_voltage w i) SWITCH_TRESHOLD = false := by
      rw [← Bool.not_eq_true]; exact h
    have heq := stop_stage_eq w i (by omega) hprev (Or.inl hf)
    refine ⟨⟨fun hgt => ?_, fun ht => absurd ht h⟩, ⟨fun _ => hf, fun _ => heq⟩⟩
    omega

theorem ranging_events_inj (k i : Nat) (hk : k ≤ 3) (hi : i ≤ 3)
    (h : ranging_events k = ranging_events i) : k = i := by
  have h1 := conv_count_ranging_events k hk
  have h2 := conv_count_ranging_events i hi
  rw [h] at h1
  omega

theorem escalation_iff_average (w : World) (i : Nat) (hi : i ≤ 2)
    (hprev : ∀ j, j < i → sum8 (fun n => w.adc_in j n % 65536) / 8 ≤ 2482) :
    (conv_count w.trace + (i + 1) < conv_count (measureResistance w).2.trace
        ↔ sum8 (fun n => w.adc_in i n % 65536) / 8 ≤ 2482)
    ∧ ((measureResistance w).2.mode (bypass_line i) = PadMode.PAL_MODE_OUTPUT_PUSHPULL
        ↔ sum8 (fun n => w.adc_in i n % 65536) / 8 ≤ 2482)
    ∧ ((measureResistance w).2.trace = w.trace ++ ranging_events i
        ↔ 2483 ≤ sum8 (fun n => w.adc_in i n % 65536) / 8)
    ∧ (2483 ≤ sum8 (fun n => w.adc_in i n % 65536) / 8 →
        (measureResistance w).1 = divider_resistance (stage_ref i) (stage_voltage w i)) := by
  have hlt : ∀ j, (FVal.lt (stage_voltage w j) SWITCH_TRESHOLD = true
      ↔ sum8 (fun n => w.adc_in j n % 65536) / 8 ≤ 2482) := by
    intro j
    rw [stage_voltage_eq]
    exact get_voltage_lt_threshold _
  have hp : ∀ j, j < i → FVal.lt (stage_voltage w j) SWITCH_TRESHOLD = true :=
    fun j hj => (hlt j).mpr (hprev j hj)
  obtain ⟨hgt, heq⟩ := stop_stage_gt_iff w i hi hp
  obtain ⟨hval, htr, -, hmode, -⟩ := measureResistance_stop w
  have hk := stop_stage_le w
  have hcc : conv_count (measureResistance w).2.trace
      = conv_count w.trace + (stop_stage w + 1) := by
    rw [htr, conv_count_append, conv_count_ranging_events _ hk]
  have hge : (FVal.lt (stage_voltage w i) SWITCH_TRESHOLD = false
      ↔ 2483 ≤ sum8 (fun n => w.adc_in i n % 65536) / 8) := by
    rw [← Bool.not_eq_true, hlt i]
    omega
  refine ⟨?_, ?_, ?_, ?_⟩
  · rw [hcc, ← hlt i, ← hgt]
    omega
  · rw [hmode i (by omega), ← hlt i, ← hgt]
    by_cases hc : i < stop_stage w
    · simp [hc]
    · simp [hc]
  · rw [← hge, ← heq, htr]
    constructor
    · intro h
      exact ranging_events_inj _ _ hk (by omega) (List.append_cancel_left h)
    · intro h
      rw [h]
  · intro h
    have he := heq.mpr (hge.mpr h)
    rw [hval, he]

/-- C16: a stage of `measureResistance` escalates exactly when its truncated
8-sample average is at most 2482.  `(3.3/4096)*s < 2.0` holds for every
`s ≤ 2482` and fails for every `s ≥ 2483`, no sample gives a voltage of exactly
2.0 V, and the test of stage `i` is this comparison on the stage's average.
For a non-terminal stage `i` that the call reaches (the averages of the
earlier stages are at most 2482): the call performs more than `i + 1`
conversions, and leaves the bypass line of stage `i` a push-pull output, exactly
when the average of stage `i` is at most 2482; its calls are those of a
measurement stopping at stage `i`, and it returns that stage's resistance,
exactly when that average is at least 2483. -/
theorem threshold_in_raw_counts (w : World) (i s : Nat) :
    (FVal.lt (get_voltage s) SWITCH_TRESHOLD = true ↔ s ≤ 2482)
    ∧ (FVal.lt (get_voltage s) SWITCH_TRESHOLD = false ↔ 2483 ≤ s)
    ∧ get_voltage s ≠ SWITCH_TRESHOLD
    ∧ (FVal.lt (stage_voltage w i) SWITCH_TRESHOLD = true
        ↔ sum8 (fun n => w.adc_in i n % 65536) / 8 ≤ 2482)
    ∧ (stop_stage w = 0 ↔ 2483 ≤ sum8 (fun n => w.adc_in 0 n % 65536) / 8)
    ∧ (i ≤ 2 → (∀ j, j < i → sum8 (fun n => w.adc_in j n % 65536) / 8 ≤ 2482) →
        (conv_count w.trace + (i + 1) < conv_count (measureResistance w).2.trace
            ↔ sum8 (fun n => w.adc_in i n % 65536) / 8 ≤ 2482)
        ∧ ((measureResistance w).2.mode (bypass_line i) = PadMode.PAL_MODE_OUTPUT_PUSHPULL
            ↔ sum8 (fun n => w.adc_in i n % 65536) / 8 ≤ 2482)
        ∧ ((measureResistance w).2.trace = w.trace ++ ranging_events i
            ↔ 2483 ≤ sum8 (fun n => w.adc_in i n % 65536) / 8)
        ∧ (2483 ≤ sum8 (fun n => w.adc_in i n % 65536) / 8 →
            (measureResistance w).1
              = divider_resistance (stage_ref i) (stage_voltage w i))) := by
  have hlt := get_voltage_lt_threshold
  have hnot : ∀ t : Nat, FVal.lt (get_voltage t) SWITCH_TRESHOLD = false ↔ 2483 ≤ t := by
    intro t
    rw [← Bool.not_eq_true, hlt t]
    omega
  refine ⟨hlt s, hnot s, ?_, ?_, ?_, fun hi hprev => escalation_iff_average w i hi hprev⟩
  · rw [get_voltage_eq, SWITCH_TRESHOLD]
    intro h
    injection h with h
    have h2 : (33 : ℚ) * (s : ℚ) = 81920 := by
      norm_num at h
      linarith
    have h3 : 33 * s = 81920 := by exact_mod_cast h2
    omega
  · rw [stage_voltage_eq]
    exact hlt _
  · rw [← hnot, ← stage_voltage_eq]
    unfold stop_stage
    constructor
    · intro h
      by_contra hc
      rw [Bool.not_eq_false] at hc
      rw [if_pos hc] at h
      split_ifs at h
    · intro h
      simp [h]

/-- C16 (witness): a call whose full stage averages 1000 and whose 1M stage
averages 3000: stage 1 is reached and does not escalate. -/
theorem threshold_in_raw_counts_witness :
    (conv_count (boot_world (adc_steps [1000, 3000])).trace + (1 + 1)
        < conv_count (measureResistance (boot_world (adc_steps [1000, 3000]))).2.trace
      ↔ sum8 (fun n => (boot_world (adc_steps [1000, 3000])).adc_in 1 n % 65536) / 8 ≤ 2482)
    ∧ ((measureResistance (boot_world (adc_steps [1000, 3000]))).2.mode (bypass_line 1)
        = PadMode.PAL_MODE_OUTPUT_PUSHPULL
      ↔ sum8 (fun n => (boot_world (adc_steps [1000, 3000])).adc_in 1 n % 65536) / 8 ≤ 2482)
    ∧ ((measureResistance (boot_world (adc_steps [1000, 3000]))).2.trace
        = (boot_world (adc_steps [1000, 3000])).trace ++ ranging_events 1
      ↔ 2483 ≤ sum8 (fun n => (boot_world (adc_steps [1000, 3000])).adc_in 1 n % 65536) / 8)
    ∧ (2483 ≤ sum8 (fun n => (boot_world (adc_steps [1000, 3000])).adc_in 1 n % 65536) / 8 →
        (measureResistance (boot_world (adc_steps [1000, 3000]))).1
          = divider_resistance (stage_ref 1)
              (stage_voltage (boot_world (adc_steps [1000, 3000])) 1)) :=
  (threshold_in_raw_counts (boot_world (adc_steps [1000, 3000])) 1 0).2.2.2.2.2
    (by norm_num)
    (by
      intro j hj
      have hj0 : j = 0 := by omega
      subst hj0
      simp [boot_world, adc_steps, sum8, range8])

end GasSensors
